import Mathlib

/-!
Verification of the natural-language command pipeline of the todo_app_deploy
backend (directory backend/ai_chatbot).  The Python sources are shallowly
embedded: every definition below mirrors a concrete function of the source
tree, with machine integers modelled as Nat, Python dicts as ordered
association lists, wall-clock time as an explicit Nat parameter, and Python
exceptions as Except values.
-/

namespace TodoApp

/-! ## Basic string helpers (Python str semantics on ASCII data) -/

/-- ASCII lower casing of one character, as Python str.lower acts on the
ASCII inputs handled by the pipeline (65-90 are the code points A-Z). -/
def pyLowerChar (c : Char) : Char :=
  if 65 ≤ c.toNat ∧ c.toNat ≤ 90 then Char.ofNat (c.toNat + 32) else c

/-- Lower-case a character list (Python str.lower). -/
def lowerChars (s : List Char) : List Char := s.map pyLowerChar

/-- Python str.isspace for the whitespace characters str.strip removes. -/
def isSpaceChar (c : Char) : Bool :=
  c = ' ' || c = '\t' || c = '\n' || c = '\r' || c = '\x0b' || c = '\x0c'

/-- Python str.lstrip on a character list. -/
def lstripChars (s : List Char) : List Char := s.dropWhile isSpaceChar

/-- Python str.strip on a character list. -/
def stripChars (s : List Char) : List Char :=
  (lstripChars ((lstripChars s.reverse)).reverse)

/-- Does the first list occur at the head of the second one? -/
def listStartsWith : List Char → List Char → Bool
  | [], _ => true
  | _ :: _, [] => false
  | a :: as, b :: bs => a = b && listStartsWith as bs

/-- Python substring containment (needle in hay). -/
def containsSub (needle : List Char) : List Char → Bool
  | [] => listStartsWith needle []
  | b :: bs => listStartsWith needle (b :: bs) || containsSub needle bs

/-- Python str.strip on a String. -/
def pyStrip (s : String) : String := String.mk (stripChars s.data)

/-- Python str.lower on a String. -/
def pyLower (s : String) : String := String.mk (lowerChars s.data)

/-- Python containment test needle in hay on Strings. -/
def strIn (needle hay : String) : Bool := containsSub needle.data hay.data

/-! ## Ordered dictionaries (Python dict with string keys) -/

/-- Lookup in an ordered association list (Python d[k] / d.get(k)). -/
def alookup {α : Type} (k : String) : List (String × α) → Option α
  | [] => none
  | p :: ps => if p.1 = k then some p.2 else alookup k ps

/-- Python d.get(k, default). -/
def alookupD {α : Type} (k : String) (d : List (String × α)) (dflt : α) : α :=
  (alookup k d).getD dflt

/-- Python d[k] = v: replace the binding in place, else append.  Keys stay
unique because insertion replaces. -/
def ainsert {α : Type} (k : String) (v : α) : List (String × α) → List (String × α)
  | [] => [(k, v)]
  | p :: ps => if p.1 = k then (k, v) :: ps else p :: ainsert k v ps

/-- Python del d[k]: remove the binding (dict keys are unique, and ainsert
keeps them so). -/
def aerase {α : Type} (k : String) (s : List (String × α)) :
    List (String × α) :=
  s.filter (fun p => p.1 ≠ k)

/-- Update the value bound to a key in place, leaving other bindings alone
(Python mutating the dict value object). -/
def amodify {α : Type} (k : String) (f : α → α) (d : List (String × α)) :
    List (String × α) :=
  d.map (fun p => if p.1 = k then (p.1, f p.2) else p)

/-! ## Data model: backend/ai_chatbot/models/command.py -/

/-- Enum IntentType of models/command.py.  Note: orchestrator code elsewhere
refers to IntentType.SORT_TASKS and IntentType.CANCELLED, but the enum as
declared in models/command.py has exactly these nine members. -/
inductive IntentType
  | CREATE_TASK
  | UPDATE_TASK
  | DELETE_TASK
  | LIST_TASKS
  | SEARCH_TASKS
  | FILTER_TASKS
  | COMPLETE_TASK
  | GET_USER_INFO
  | UNKNOWN
deriving DecidableEq, Repr

/-- String value of each IntentType member (Python intent.value). -/
def IntentType.value : IntentType → String
  | .CREATE_TASK => "CREATE_TASK"
  | .UPDATE_TASK => "UPDATE_TASK"
  | .DELETE_TASK => "DELETE_TASK"
  | .LIST_TASKS => "LIST_TASKS"
  | .SEARCH_TASKS => "SEARCH_TASKS"
  | .FILTER_TASKS => "FILTER_TASKS"
  | .COMPLETE_TASK => "COMPLETE_TASK"
  | .GET_USER_INFO => "GET_USER_INFO"
  | .UNKNOWN => "UNKNOWN"

/-- Model NaturalLanguageCommand of models/command.py, restricted to the
fields the verified components read (raw_input, intent, entities,
confidence); the optional bookkeeping ids are irrelevant here. -/
structure NaturalLanguageCommand where
  raw_input : String
  intent : IntentType
  entities : List (String × String) := []
  confidence : ℚ := 0
deriving DecidableEq, Repr

/-! ## Intent classifier: nlp_intent/classifier.py, _rule_based_classify.

The Python loop tests each pattern with the expression pattern in
text_lower: plain substring containment of the pattern string (the
patterns are never compiled as regexes on this path). -/

/-- Declaration order of the intent_patterns dict keys in
_rule_based_classify. -/
def intentOrder : List IntentType :=
  [.CREATE_TASK, .UPDATE_TASK, .DELETE_TASK, .LIST_TASKS,
   .SEARCH_TASKS, .FILTER_TASKS, .COMPLETE_TASK, .GET_USER_INFO]

/-- Trigger pattern strings per intent, transcribed from
_rule_based_classify. -/
def intentPatterns : IntentType → List String
  | .CREATE_TASK =>
      ["add.*task", "create.*task", "new.*task", "make.*task", "add", "create"]
  | .UPDATE_TASK =>
      ["update.*task", "modify.*task", "change.*task", "update", "modify",
       "change", "edit.*task", "edit", "update.*title", "update.*description",
       "update.*priority", "change.*title", "change.*description",
       "change.*priority", "modify.*title", "modify.*description",
       "modify.*priority"]
  | .DELETE_TASK =>
      ["delete.*task", "remove.*task", "drop.*task", "delete", "remove"]
  | .LIST_TASKS =>
      ["show.*task", "list.*task", "view.*task", "what.*task", "all.*task",
       "show", "list"]
  | .SEARCH_TASKS =>
      ["find.*task", "search.*task", "look.*for.*task", "find", "search"]
  | .FILTER_TASKS =>
      ["filter.*task", "show.*only", "only.*task", "just.*task",
       "display.*only", "filtered.*task", "filter"]
  | .COMPLETE_TASK =>
      ["complete.*task", "finish.*task", "done.*with.*task", "mark.*done",
       "complete", "finish", "done"]
  | .GET_USER_INFO =>
      ["who.*am.*i", "what.*is.*my.*email", "my.*info", "user.*info",
       "who.*i.*am", "my.*name", "what.*is.*my.*name", "my.*email",
       "what.*is.*my.*email"]
  | .UNKNOWN => []

/-- Number of patterns of an intent that occur as substrings of the
lower-cased input (the score accumulated by the inner loop). -/
def patternScore (tl : List Char) (i : IntentType) : Nat :=
  ((intentPatterns i).filter (fun p => containsSub p.data tl)).length

/-- Folding step of the best-intent loop: replace the best candidate only
on a strictly greater score. -/
def bestStep (tl : List Char) (b : IntentType × Nat) (i : IntentType) :
    IntentType × Nat :=
  let s := patternScore tl i
  if s > b.2 then (i, s) else b

/-- Winner of the scoring loop, starting from (UNKNOWN, 0). -/
def bestIntent (tl : List Char) : IntentType × Nat :=
  intentOrder.foldl (bestStep tl) (.UNKNOWN, 0)

/-- Embedding of _rule_based_classify: lower-case and strip the text, score
every intent, normalise the best score to a confidence in [0,1]. -/
def rule_based_classify (text : String) : IntentType × ℚ :=
  let tl := stripChars (lowerChars text.data)
  let b := bestIntent tl
  if b.2 > 0 then
    (b.1, min ((b.2 : ℚ) / ((intentPatterns b.1).length : ℚ)) 1)
  else
    (b.1, 0)

/-! ## A small backtracking regex engine.

entity_extractor.py and multi_intent.py use Python's re module on a fixed
handful of patterns.  The engine below implements exactly the features those
patterns need (literals, classes, escapes \s \w \d, alternation, greedy and
lazy repetition, one level of capture groups, word boundaries, the two
look-arounds of the ampersand separator, and the end anchor), with Python's
backtracking priority: earlier alternatives first, greedy prefers longer,
lazy prefers shorter, and search takes the leftmost match. -/

/-- Character-class member: a single character or an inclusive range. -/
inductive ClsItem
  | one (c : Char)
  | rng (lo hi : Char)
deriving DecidableEq, Repr

/-- Regular-expression syntax covering the source's patterns. -/
inductive Re
  | eps
  | ch (c : Char)
  | cls (neg : Bool) (items : List ClsItem)
  | dot
  | ws
  | wd
  | dig
  | alt (a b : Re)
  | seq (a b : Re)
  | star (greedy : Bool) (a : Re)
  | grp (n : Nat) (a : Re)
  | wb
  | nlbw
  | nla (c : Char)
  | eos
deriving DecidableEq, Repr

/-- Python \w on ASCII, on code points: letters, digits, underscore. -/
def isWordChar (c : Char) : Bool :=
  (65 ≤ c.toNat && c.toNat ≤ 90) || (97 ≤ c.toNat && c.toNat ≤ 122)
    || (48 ≤ c.toNat && c.toNat ≤ 57) || c.toNat == 95

/-- Python \d. -/
def isDigitChar (c : Char) : Bool := '0' ≤ c && c ≤ '9'

/-- Character comparison, optionally case-insensitive (re.IGNORECASE). -/
def charEq (ci : Bool) (p c : Char) : Bool :=
  if ci then pyLowerChar p = pyLowerChar c else p = c

/-- Membership of a character in one class item. -/
def clsItemMatch (c : Char) : ClsItem → Bool
  | .one d => c = d
  | .rng lo hi => lo ≤ c && c ≤ hi

/-- Membership of a character in a (possibly negated) class.  The classes
in the source are case-symmetric, so IGNORECASE is immaterial here. -/
def clsMatch (neg : Bool) (items : List ClsItem) (c : Char) : Bool :=
  let m := items.any (clsItemMatch c)
  if neg then !m else m

/-- Is the character before the current position a word character?  Start
of input counts as a non-word position. -/
def optWord : Option Char → Bool
  | none => false
  | some c => isWordChar c

/-- Record the text captured by group n (outermost write wins per id, as in
the source's non-nested groups). -/
def capInsert (n : Nat) (v : List Char) :
    List (Nat × List Char) → List (Nat × List Char)
  | [] => [(n, v)]
  | p :: ps => if p.1 = n then (n, v) :: ps else p :: capInsert n v ps

/-- Lookup of a capture group. -/
def capLookup (n : Nat) : List (Nat × List Char) → Option (List Char)
  | [] => none
  | p :: ps => if p.1 = n then some p.2 else capLookup n ps

/-- Matcher context: the character just before the current position (for
look-behind and word boundaries), the remaining input, and the captures
recorded so far. -/
structure MCtx where
  prev : Option Char
  rest : List Char
  caps : List (Nat × List Char)
deriving DecidableEq, Repr

/-- First character of the remaining input is a word character? -/
def nextWord (ctx : MCtx) : Bool :=
  match ctx.rest with
  | [] => false
  | d :: _ => isWordChar d

/-- Backtracking matcher: every way the expression can consume a prefix of
ctx.rest, listed in the priority order of Python's re engine.  The fuel
only bounds recursion depth; callers supply more than any pattern here can
use.  Unbounded repetition requires progress on each turn, which is how
Python treats the patterns at hand (none of their starred bodies can match
the empty string). -/
def mmatch : Nat → Bool → Re → MCtx → List MCtx
  | 0, _, _, _ => []
  | fuel+1, ci, re, ctx =>
    match re with
    | .eps => [ctx]
    | .ch c =>
      match ctx.rest with
      | [] => []
      | d :: tl => if charEq ci c d then [⟨some d, tl, ctx.caps⟩] else []
    | .cls neg items =>
      match ctx.rest with
      | [] => []
      | d :: tl => if clsMatch neg items d then [⟨some d, tl, ctx.caps⟩] else []
    | .dot =>
      match ctx.rest with
      | [] => []
      | d :: tl => if d = '\n' then [] else [⟨some d, tl, ctx.caps⟩]
    | .ws =>
      match ctx.rest with
      | [] => []
      | d :: tl => if isSpaceChar d then [⟨some d, tl, ctx.caps⟩] else []
    | .wd =>
      match ctx.rest with
      | [] => []
      | d :: tl => if isWordChar d then [⟨some d, tl, ctx.caps⟩] else []
    | .dig =>
      match ctx.rest with
      | [] => []
      | d :: tl => if isDigitChar d then [⟨some d, tl, ctx.caps⟩] else []
    | .alt a b => mmatch fuel ci a ctx ++ mmatch fuel ci b ctx
    | .seq a b => (mmatch fuel ci a ctx).flatMap (fun c2 => mmatch fuel ci b c2)
    | .star g a =>
      let deeper :=
        ((mmatch fuel ci a ctx).filter
            (fun c2 => c2.rest.length < ctx.rest.length)).flatMap
          (fun c2 => mmatch fuel ci (.star g a) c2)
      if g then deeper ++ [ctx] else ctx :: deeper
    | .grp n a =>
      (mmatch fuel ci a ctx).map (fun c2 =>
        ⟨c2.prev, c2.rest,
         capInsert n (ctx.rest.take (ctx.rest.length - c2.rest.length)) c2.caps⟩)
    | .wb => if optWord ctx.prev != nextWord ctx then [ctx] else []
    | .nlbw => if optWord ctx.prev then [] else [ctx]
    | .nla c =>
      match ctx.rest with
      | [] => [ctx]
      | d :: _ => if d = c then [] else [ctx]
    | .eos =>
      match ctx.rest with
      | [] => [ctx]
      | _ :: _ => []

/-- Fuel that exceeds what any pattern of the source can consume on the
given input. -/
def fuelFor (s : List Char) : Nat := 64 * s.length + 64

/-- Result of a successful search: the text before, inside and after the
match, plus captures.  The matched text is group 0 of Python's match
object. -/
structure ReMatch where
  pre : List Char
  matched : List Char
  post : List Char
  caps : List (Nat × List Char)
deriving DecidableEq, Repr

/-- Match attempt anchored at the current position: the engine's first
(highest-priority) way to match here, if any. -/
def reHere (ci : Bool) (re : Re) (prev : Option Char) (s : List Char) :
    Option ReMatch :=
  match mmatch (fuelFor s) ci re ⟨prev, s, []⟩ with
  | c2 :: _ => some ⟨[], s.take (s.length - c2.rest.length), c2.rest, c2.caps⟩
  | [] => none

/-- Leftmost search (re.search): scan positions left to right, taking the
engine's first match at the first position that has one. -/
def reFind (ci : Bool) (re : Re) : Option Char → List Char → Option ReMatch
  | prev, [] => reHere ci re prev []
  | prev, d :: tl =>
    match reHere ci re prev (d :: tl) with
    | some m => some m
    | none =>
      (reFind ci re (some d) tl).map (fun r => { r with pre := d :: r.pre })

/-- re.match with re.IGNORECASE at the start of the (already stripped)
input, as used by the decomposer's separator test. -/
def reMatchStartCI (re : Re) (s : List Char) : Bool :=
  !(mmatch (fuelFor s) true re ⟨none, s, []⟩).isEmpty

/-- Captured text of group k, '' when absent (all groups of the source's
patterns participate whenever the pattern matches). -/
def capStr (m : ReMatch) (k : Nat) : List Char := (capLookup k m.caps).getD []

/-! ## Separator patterns: orchestrator/multi_intent.py,
intent_separator_patterns, transcribed in list order. -/

/-- Literal string as a regex. -/
def rstr : List Char → Re
  | [] => .eps
  | c :: cs => .seq (.ch c) (rstr cs)

/-- Literal String as a regex. -/
def restr (s : String) : Re := rstr s.data

/-- Ordered alternation of several branches. -/
def altN : List Re → Re
  | [] => .eps
  | [r] => r
  | r :: rs => .alt r (altN rs)

/-- One-or-more repetition (e+ / e+?). -/
def plusRe (greedy : Bool) (a : Re) : Re := .seq a (.star greedy a)

/-- Optional occurrence (e?); greedy prefers presence. -/
def optRe (greedy : Bool) (a : Re) : Re :=
  if greedy then .alt a .eps else .alt .eps a

/-- Separator 1: word-bounded "and". -/
def sepWordAnd : Re := .seq .wb (.seq (restr "and") .wb)

/-- Separator 2: semicolon. -/
def sepSemicolon : Re := .ch ';'

/-- Separator 3: period. -/
def sepDot : Re := .ch '.'

/-- Separator 4: question mark or exclamation mark. -/
def sepPunct : Re := .alt (.ch '?') (.ch '!')

/-- Separator 5: comma, optional spaces, "and", optional spaces. -/
def sepCommaAnd : Re :=
  .seq (.ch ',') (.seq (.star true .ws) (.seq (restr "and") (.star true .ws)))

/-- Separator 6: stand-alone ampersand with its two look-arounds. -/
def sepAmp : Re := .seq .nlbw (.seq (.ch '&') (.nla '&'))

/-- The separator list, in source order. -/
def sepPatterns : List Re :=
  [sepWordAnd, sepSemicolon, sepDot, sepPunct, sepCommaAnd, sepAmp]

/-! ## Extractor patterns: nlp_intent/entity_extractor.py,
_rule_based_extract, transcribed in source order. -/

/-- Verb alternation shared by the two task-title patterns. -/
def addVerbs : Re :=
  altN [restr "add", restr "create", restr "make", restr "buy", restr "do",
        restr "complete", restr "finish"]

/-- Class [^.!?] (identical to [^!.?]). -/
def notSentEnd : Re := .cls true [.one '.', .one '!', .one '?']

/-- Trailer (?:\.|$). -/
def sentEndOrEnd : Re := .alt (.ch '.') .eos

/-- Optional article (?:a\s+)?. -/
def optA : Re := optRe true (.seq (.ch 'a') (plusRe true .ws))

/-- Task-title pattern 1. -/
def addPat1 : Re :=
  .seq addVerbs (.seq (plusRe true .ws) (.seq optA (.seq
    (altN [.seq (restr "task") (.seq (plusRe true .ws)
             (.seq (restr "to") (plusRe true .ws))),
           .seq (restr "to") (plusRe true .ws),
           .seq (restr "that") (plusRe true .ws)])
    (.seq (.grp 1 (plusRe false notSentEnd)) sentEndOrEnd))))

/-- Task-title pattern 2. -/
def addPat2 : Re :=
  .seq addVerbs (.seq (plusRe true .ws) (.seq optA
    (.seq (.grp 1 (plusRe false notSentEnd)) sentEndOrEnd)))

/-- Update-verb alternation. -/
def updVerbs : Re := altN [restr "update", restr "change", restr "modify"]

/-- Optional (?:the\s+)?. -/
def optThe : Re := optRe true (.seq (restr "the") (plusRe true .ws))

/-- Optional (?:task\s+)?. -/
def optTask : Re := optRe true (.seq (restr "task") (plusRe true .ws))

/-- Alternation (?:to|as). -/
def toOrAs : Re := altN [restr "to", restr "as"]

/-- Alternation (?:\s+to|\s+as). -/
def wsToOrAs : Re :=
  .alt (.seq (plusRe true .ws) (restr "to")) (.seq (plusRe true .ws) (restr "as"))

/-- Update pattern 1 (three groups): attribute of a named task. -/
def updPat1 : Re :=
  .seq updVerbs (.seq (plusRe true .ws) (.seq optThe (.seq
    (.grp 1 (plusRe true .wd)) (.seq (plusRe true .ws) (.seq (restr "of")
    (.seq (plusRe true .ws) (.seq (altN [restr "task", restr "the"])
    (.seq (plusRe true .ws) (.seq (.grp 2 (.star false .dot))
    (.seq wsToOrAs (.seq (plusRe true .ws)
    (.seq (.grp 3 (plusRe false .dot)) sentEndOrEnd))))))))))))

/-- Update pattern 2 (two groups): bare attribute update. -/
def updPat2 : Re :=
  .seq updVerbs (.seq (plusRe true .ws) (.seq optThe (.seq
    (.grp 1 (plusRe true .wd)) (.seq (plusRe true .ws) (.seq toOrAs
    (.seq (plusRe true .ws)
    (.seq (.grp 2 (plusRe false .dot)) sentEndOrEnd)))))))

/-- Shared shape of update patterns 3-6 (two groups): task reference, a
fixed attribute keyword, and the new value. -/
def updAttrPat (attr : Re) : Re :=
  .seq updVerbs (.seq (plusRe true .ws) (.seq optTask (.seq
    (.grp 1 (plusRe false .dot)) (.seq (plusRe true .ws) (.seq attr
    (.seq (plusRe true .ws) (.seq toOrAs (.seq (plusRe true .ws)
    (.seq (.grp 2 (plusRe false .dot)) sentEndOrEnd)))))))))

/-- Update pattern 3: (?:title|name). -/
def updPat3 : Re := updAttrPat (altN [restr "title", restr "name"])

/-- Update pattern 4: description. -/
def updPat4 : Re := updAttrPat (restr "description")

/-- Update pattern 5: priority. -/
def updPat5 : Re := updAttrPat (restr "priority")

/-- Update pattern 6: (?:due date|date). -/
def updPat6 : Re := updAttrPat (altN [restr "due date", restr "date"])

/-- Update patterns with their capture-group counts
(len(match.groups()) in the source). -/
def updatePatterns : List (Re × Nat) :=
  [(updPat1, 3), (updPat2, 2), (updPat3, 2), (updPat4, 2), (updPat5, 2),
   (updPat6, 2)]

/-- Search-verb alternation (?:find|search|look.*for|show.*me). -/
def searchVerbs : Re :=
  altN [restr "find", restr "search",
        .seq (restr "look") (.seq (.star true .dot) (restr "for")),
        .seq (restr "show") (.seq (.star true .dot) (restr "me"))]

/-- Alternation (?:tasks?|items?). -/
def tasksOrItems : Re :=
  altN [.seq (restr "task") (optRe true (.ch 's')),
        .seq (restr "item") (optRe true (.ch 's'))]

/-- Search pattern 1: qualified search term. -/
def searchPat1 : Re :=
  .seq searchVerbs (.seq (.star false .dot) (.seq tasksOrItems
    (.seq (plusRe true .ws) (.seq
      (altN [restr "containing", restr "about", restr "with", restr "like"])
      (.seq (plusRe true .ws)
        (.seq (.grp 1 (plusRe false notSentEnd)) sentEndOrEnd))))))

/-- Search pattern 2: bare search term. -/
def searchPat2 : Re :=
  .seq searchVerbs (.seq (plusRe true .ws)
    (.seq (.grp 1 (plusRe false notSentEnd)) sentEndOrEnd))

/-- One or two digits \d{1,2}. -/
def d12 : Re := .seq .dig (optRe true .dig)

/-- Two to four digits \d{2,4}. -/
def d24 : Re := .seq .dig (.seq .dig (optRe true (.seq .dig (optRe true .dig))))

/-- Exactly four digits \d{4}. -/
def d4 : Re := .seq .dig (.seq .dig (.seq .dig .dig))

/-- Class of the slash and dash date separators. -/
def slashDash : Re := .cls false [.one '/', .one '-']

/-- Class [A-Za-z]. -/
def alphaCls : Re := .cls false [.rng 'A' 'Z', .rng 'a' 'z']

/-- Date pattern 1: numeric date after "on". -/
def datePat1 : Re :=
  .seq (restr "on") (.seq (plusRe true .ws)
    (.grp 1 (.seq d12 (.seq slashDash (.seq d12 (.seq slashDash d24))))))

/-- Date pattern 2: written date after "on". -/
def datePat2 : Re :=
  .seq (restr "on") (.seq (plusRe true .ws) (.grp 1
    (.seq (plusRe true alphaCls) (.seq (plusRe true .ws) (.seq d12
    (.seq (optRe true (altN [restr "st", restr "nd", restr "rd", restr "th"]))
    (.seq (.ch ',') (.seq (.star true .ws) d4))))))))

/-- Date pattern 3: relative date words. -/
def datePat3 : Re :=
  altN [restr "today", restr "tomorrow",
        .seq (restr "next") (.seq (plusRe true .ws) (restr "week")),
        .seq (restr "next") (.seq (plusRe true .ws) (restr "month"))]

/-- Date patterns in source order. -/
def datePatterns : List Re := [datePat1, datePat2, datePat3]

/-! ## Entity extractor: nlp_intent/entity_extractor.py, _rule_based_extract. -/

/-- Collapse every whitespace run to a single space, as the source's
re.sub of one-or-more whitespace with a space. -/
def collapseWs : List Char → List Char
  | [] => []
  | c :: cs => if isSpaceChar c then ' ' :: skipWs cs else c :: collapseWs cs
where
  /-- Drop the rest of the current whitespace run. -/
  skipWs : List Char → List Char
  | [] => []
  | c :: cs => if isSpaceChar c then skipWs cs else c :: collapseWs cs

/-- First pattern of the list that re.search (IGNORECASE) matches. -/
def firstRe : List Re → List Char → Option ReMatch
  | [], _ => none
  | p :: ps, s =>
    match reFind true p none s with
    | some m => some m
    | none => firstRe ps s

/-- First update pattern that matches, paired with its group count. -/
def firstReN : List (Re × Nat) → List Char → Option (Nat × ReMatch)
  | [], _ => none
  | p :: ps, s =>
    match reFind true p.1 none s with
    | some m => some (p.2, m)
    | none => firstReN ps s

/-- Attribute-name map of the update branch. -/
def attr_map : List (String × String) :=
  [("title", "title"), ("name", "title"), ("description", "description"),
   ("priority", "priority"), ("due date", "due_date"), ("date", "due_date"),
   ("category", "category")]

/-- Embedding of _rule_based_extract: the five extraction stages in source
order, accumulating an ordered entity dict. -/
def rule_based_extract (text : String) : List (String × String) :=
  let t := text.data
  let tl := lowerChars t
  let entities : List (String × String) := []
  let entities :=
    if containsSub "my name".data tl || containsSub "what is my name".data tl
        || containsSub "tell me my name".data tl then
      ainsert "info_type" "name" entities
    else if containsSub "my email".data tl
        || containsSub "what is my email".data tl
        || containsSub "tell me my email".data tl then
      ainsert "info_type" "email" entities
    else if containsSub "my info".data tl || containsSub "user info".data tl
        || containsSub "who am i".data tl then
      ainsert "info_type" "general" entities
    else entities
  let entities :=
    match firstRe [addPat1, addPat2] t with
    | some m =>
        ainsert "task_title" (String.mk (collapseWs (stripChars (capStr m 1))))
          entities
    | none => entities
  let entities :=
    match firstReN updatePatterns t with
    | some (n, m) =>
      if n ≥ 2 then
        let attr := String.mk (stripChars (capStr m 1))
        let search_term :=
          if n = 3 then String.mk (stripChars (capStr m 2))
          else alookupD "task_title" entities (alookupD "search_term" entities "")
        let new_value :=
          if n = 3 then String.mk (stripChars (capStr m 3))
          else String.mk (stripChars (capStr m 2))
        let entities :=
          match alookup (pyLower attr) attr_map with
          | some key => ainsert key new_value entities
          | none => entities
        if search_term ≠ "" then ainsert "search_term" search_term entities
        else entities
      else entities
    | none => entities
  let entities :=
    match firstRe [searchPat1, searchPat2] t with
    | some m =>
        ainsert "search_term" (String.mk (collapseWs (stripChars (capStr m 1))))
          entities
    | none => entities
  let entities :=
    if (alookup "task_title" entities).isNone
        && (alookup "search_term" entities).isSome then
      ainsert "task_title" (alookupD "search_term" entities "") entities
    else entities
  let entities :=
    match (["high", "medium", "low"].find? (fun p => containsSub p.data tl)) with
    | some p => ainsert "priority" p entities
    | none => entities
  let entities :=
    match firstRe datePatterns t with
    | some m => ainsert "due_date" (String.mk m.matched) entities
    | none => entities
  entities

/-! ## Quality validator: quality_guard/validator.py, validate_task_operation. -/

/-- Python runtime error raised by the embedded code: the NameError on
the validator local named entities, and AttributeError on a named missing
attribute. -/
inductive PyErr
  | nameErrorEntities
  | attributeError (attr : String)
deriving DecidableEq, Repr

/-- Result dictionary of validate_task_operation; keys that a given return
statement omits are modelled as none. -/
structure TaskOpResult where
  is_valid : Bool
  requires_confirmation : Option Bool := none
  message : String
  confirmation_reason : Option String := none
  reason : Option String := none
deriving DecidableEq, Repr

/-- The destructive-operation intent names checked by the validator (note
that CLEAR_ALL_TASKS is not a member of IntentType). -/
def destructive_operations : List String :=
  ["DELETE_TASK", "UPDATE_TASK", "CLEAR_ALL_TASKS"]

/-- Bulk-deletion entity values. -/
def bulk_deletion_terms : List String :=
  ["all", "everything", "all tasks", "every task", "*", "bulk"]

/-- Final return value of the validator. -/
def taskOpValid : TaskOpResult :=
  { is_valid := true, requires_confirmation := some false,
    message := "Task operation is valid" }

/-- Embedding of validate_task_operation.  The Python local variable
named entities is assigned only inside the destructive-operations branch;
the read of it on the CREATE_TASK branch is modelled through entitiesVar,
and raises NameError (Except.error) when the destructive branch did not
run. -/
def validate_task_operation (command : NaturalLanguageCommand) :
    Except PyErr TaskOpResult :=
  let iv := command.intent.value
  let entitiesVar : Option (List (String × String)) :=
    if destructive_operations.contains iv then some command.entities else none
  let destructiveCheck : Option TaskOpResult :=
    if destructive_operations.contains iv then
      let entities := command.entities
      let deleteCheck : Option TaskOpResult :=
        if iv = "DELETE_TASK" then
          let search_term := pyLower (alookupD "search_term" entities "")
          let title := pyLower (alookupD "task_title" entities "")
          if bulk_deletion_terms.contains search_term
              || bulk_deletion_terms.contains title then
            some { is_valid := false, requires_confirmation := some true,
                   message := "Deleting all tasks requires confirmation",
                   confirmation_reason := some "bulk_deletion" }
          else
            let raw_input_lower := pyLower command.raw_input
            if ["delete everything", "remove all", "clear all"].any
                (fun term => strIn term raw_input_lower) then
              some { is_valid := false, requires_confirmation := some true,
                     message :=
                       "This bulk deletion operation requires confirmation",
                     confirmation_reason := some "bulk_deletion" }
            else none
        else none
      match deleteCheck with
      | some r => some r
      | none =>
        if iv = "UPDATE_TASK" then
          if (alookupD "search_term" entities "") ≠ ""
              || (alookupD "filter" entities "") ≠ "" then
            let raw_input_lower := pyLower command.raw_input
            if ["all", "every", "each"].any
                (fun term => strIn term raw_input_lower) then
              some { is_valid := false, requires_confirmation := some true,
                     message := "Bulk update operation requires confirmation",
                     confirmation_reason := some "bulk_update" }
            else none
          else none
        else none
    else none
  match destructiveCheck with
  | some r => .ok r
  | none =>
    if iv = "CREATE_TASK" then
      match entitiesVar with
      | none => .error .nameErrorEntities
      | some entities =>
        if (alookupD "task_title" entities "") = "" then
          if command.raw_input = "" || (pyStrip command.raw_input).length < 3 then
            .ok { is_valid := false,
                  message := "Not enough information to create a task",
                  reason := some "insufficient_task_info" }
          else .ok taskOpValid
        else .ok taskOpValid
    else .ok taskOpValid

/-! ## Hierarchical multi-intent strategy: orchestrator/multi_intent.py. -/

/-- Attribute access IntentType.name on the enum class of
models/command.py: some member for each of the nine declared names, none
(an AttributeError at runtime) for every other name. -/
def intentTypeAttr : String → Option IntentType
  | "CREATE_TASK" => some .CREATE_TASK
  | "UPDATE_TASK" => some .UPDATE_TASK
  | "DELETE_TASK" => some .DELETE_TASK
  | "LIST_TASKS" => some .LIST_TASKS
  | "SEARCH_TASKS" => some .SEARCH_TASKS
  | "FILTER_TASKS" => some .FILTER_TASKS
  | "COMPLETE_TASK" => some .COMPLETE_TASK
  | "GET_USER_INFO" => some .GET_USER_INFO
  | "UNKNOWN" => some .UNKNOWN
  | _ => none

/-- The key-value entries of the intent_priority_map dict literal in
MultiIntentProcessor, in source order, each key written as the name of the
IntentType attribute it dereferences. -/
def intent_priority_entries : List (String × Nat) :=
  [("UNKNOWN", 0), ("LIST_TASKS", 1), ("SEARCH_TASKS", 2),
   ("FILTER_TASKS", 3), ("SORT_TASKS", 4), ("CREATE_TASK", 5),
   ("UPDATE_TASK", 6), ("DELETE_TASK", 7), ("GET_USER_INFO", 8),
   ("CANCELLED", 9)]

/-- Left-to-right evaluation of the dict literal: each key is the
attribute access IntentType.name, which raises AttributeError when the
enum declares no member of that name. -/
def resolvePriorityEntries :
    List (String × Nat) → Except PyErr (List (IntentType × Nat))
  | [] => .ok []
  | (n, p) :: rest =>
    match intentTypeAttr n with
    | none => .error (.attributeError n)
    | some i => (resolvePriorityEntries rest).map (fun t => (i, p) :: t)

/-- Evaluation of the assignment self.intent_priority_map = { ... } in
MultiIntentProcessor, run when the module-level instance
multi_intent_processor = MultiIntentProcessor() is created at import
time. -/
def intent_priority_map : Except PyErr (List (IntentType × Nat)) :=
  resolvePriorityEntries intent_priority_entries

/-- The methods that class NLPIntentAgent of nlp_intent/agent.py defines;
the classification loop of _process_hierarchically calls
nlp_intent_agent.classify_intent, which is not among them (another
AttributeError). -/
def nlp_intent_agent_methods : List String :=
  ["process_input", "get_suggested_intents", "validate_command"]

/-! ## Multi-intent decomposer: orchestrator/multi_intent.py,
extract_multiple_intents. -/

/-- One pass of re.split with the pattern wrapped in a group: the result
interleaves the pieces between matches with the matched separator texts.
The fuel bounds the number of splits; every caller supplies the input
length plus one, and every separator consumes at least one character. -/
def resplit (re : Re) : Nat → Option Char → List Char → List (List Char)
  | 0, _, s => [s]
  | fuel+1, prev, s =>
    match reFind false re prev s with
    | none => [s]
    | some m =>
      if m.matched = [] then [s]
      else m.pre :: m.matched :: resplit re fuel m.matched.getLast? m.post

/-- re.split over a whole part (case-sensitive, as in the source's split
call, which passes no flags). -/
def resplitTop (re : Re) (s : List Char) : List (List Char) :=
  resplit re (s.length + 1) none s

/-- Reconstruction loop of extract_multiple_intents for one separator
pattern: walk the split pieces, treating any piece whose stripped text
starts with a case-insensitive match of the pattern as a boundary, and
accumulate the rest into the current fragment. -/
def processPart (re : Re) (part : List Char) : List (List Char) :=
  let sp := resplitTop re part
  let step :=
    sp.foldl
      (fun (st : List (List Char) × List Char) item =>
        if reMatchStartCI re (stripChars item) then
          if stripChars st.2 ≠ [] then (st.1 ++ [stripChars st.2], [])
          else st
        else (st.1, st.2 ++ item))
      ([], [])
  let reconstructed :=
    if stripChars step.2 ≠ [] then step.1 ++ [stripChars step.2] else step.1
  reconstructed.filter (fun p => stripChars p ≠ [])

/-- First occurrence of a literal separator: the text before it and the
text after it (Python str.find inside str.split). -/
def breakOn (sep : List Char) : List Char → Option (List Char × List Char)
  | [] => if sep = [] then some ([], []) else none
  | c :: cs =>
    if listStartsWith sep (c :: cs) then some ([], (c :: cs).drop sep.length)
    else (breakOn sep cs).map (fun r => (c :: r.1, r.2))

/-- Python str.split(sep) for a non-empty separator. -/
def strSplitOn (sep : List Char) : Nat → List Char → List (List Char)
  | 0, s => [s]
  | fuel+1, s =>
    match breakOn sep s with
    | none => [s]
    | some (pre, post) => pre :: strSplitOn sep fuel post

/-- Refinement pass of extract_multiple_intents: a piece whose lower-cased
text still contains " and " is split on the literal (case-sensitive)
" and ", keeping the stripped non-empty fragments. -/
def refineAnd (part : List Char) : List (List Char) :=
  if containsSub " and ".data (lowerChars part) then
    ((strSplitOn " and ".data (part.length + 1) part).map stripChars).filter
      (fun p => p ≠ [])
  else [part]

/-- Embedding of extract_multiple_intents: strip, split by each separator
pattern in turn, clean, refine on " and ". -/
def extract_multiple_intents (raw : String) : List String :=
  let normalized := stripChars raw.data
  let parts :=
    sepPatterns.foldl (fun parts re => parts.flatMap (processPart re))
      [normalized]
  let cleaned := (parts.map stripChars).filter (fun p => p ≠ [])
  let refined := cleaned.flatMap refineAnd
  refined.map String.mk

/-- Does any separator pattern match anywhere in the text, searching
case-insensitively?  This decides "no separators found" for the
decomposer contract: when it is false, no splitting pass can fire. -/
def hasSepMatchCI (s : List Char) : Bool :=
  sepPatterns.any (fun p => (reFind true p none s).isSome)

/-- The character just before a search position: the last character of the
text already scanned, or the ambient previous character at the very
start. -/
def prevAt (prev : Option Char) (xs : List Char) : Option Char :=
  match xs.getLast? with
  | some c => some c
  | none => prev

/-! ## Confirmation service: services/confirmation_service.py.

Wall-clock time (datetime.now) is an explicit Nat parameter counted in
minutes, and the uuid4 request id is supplied by the caller; the
in-memory dict of pending confirmations is an ordered association list. -/

/-- Enum ConfirmationType. -/
inductive ConfirmationType
  | DESTRUCTIVE_ACTION
  | ACCOUNT_ACTION
  | DATA_MODIFICATION
deriving DecidableEq, Repr

/-- ConfirmationRequest with its lifecycle flags. -/
structure ConfirmationRequest where
  confirmation_id : String
  ctype : ConfirmationType
  message : String
  original_command : NaturalLanguageCommand
  action_to_confirm : String
  created_at : Nat
  expires_at : Nat
  is_confirmed : Bool
  is_rejected : Bool
deriving DecidableEq, Repr

/-- ConfirmationRequest.__init__ at time now (expires_in_minutes defaults
to 5; both flags start false). -/
def mkConfirmationRequest (id : String) (now : Nat) (ctype : ConfirmationType)
    (message : String) (command : NaturalLanguageCommand) (action : String)
    (expires_in : Nat := 5) : ConfirmationRequest :=
  { confirmation_id := id, ctype := ctype, message := message,
    original_command := command, action_to_confirm := action,
    created_at := now, expires_at := now + expires_in,
    is_confirmed := false, is_rejected := false }

/-- The pending_confirmations dict of ConfirmationService. -/
abbrev ConfStore := List (String × ConfirmationRequest)

/-- Default confirmation message per type. -/
def default_confirmation_message (ctype : ConfirmationType) (action : String) :
    String :=
  match ctype with
  | .DESTRUCTIVE_ACTION =>
      "Are you sure you want to " ++ action ++ "? This action cannot be undone."
  | .ACCOUNT_ACTION => "You are about to " ++ action ++ ". Confirm this action?"
  | .DATA_MODIFICATION => "Confirm: " ++ action

/-- create_confirmation_request: build the request and store it under its
id. -/
def create_confirmation_request (now : Nat) (id : String)
    (command : NaturalLanguageCommand) (action : String)
    (ctype : ConfirmationType := .DESTRUCTIVE_ACTION)
    (custom_message : Option String := none) (s : ConfStore) :
    ConfirmationRequest × ConfStore :=
  let msg := custom_message.getD (default_confirmation_message ctype action)
  let req := mkConfirmationRequest id now ctype msg command action
  (req, ainsert id req s)

/-- is_expired: strictly past the expiry instant. -/
def is_expired (now : Nat) (c : ConfirmationRequest) : Bool := now > c.expires_at

/-- confirm_action: set the flags when the id is known and not expired;
the record stays stored either way. -/
def confirm_action (now : Nat) (id : String) (s : ConfStore) :
    Bool × ConfStore :=
  match alookup id s with
  | some c =>
    if !(is_expired now c) then
      (true, ainsert id { c with is_confirmed := true, is_rejected := false } s)
    else (false, s)
  | none => (false, s)

/-- reject_action: when the id is known and not expired, mark rejected and
delete the record (the flag writes before the delete are unobservable
through the store); otherwise report failure and leave the store alone. -/
def reject_action (now : Nat) (id : String) (s : ConfStore) :
    Bool × ConfStore :=
  match alookup id s with
  | some c => if !(is_expired now c) then (true, aerase id s) else (false, s)
  | none => (false, s)

/-- get_confirmation_status: purge an expired record on access and report
not found; return the live record otherwise. -/
def get_confirmation_status (now : Nat) (id : String) (s : ConfStore) :
    Option ConfirmationRequest × ConfStore :=
  match alookup id s with
  | some c => if is_expired now c then (none, aerase id s) else (some c, s)
  | none => (none, s)

/-- Model ProcessedCommandResult of models/command.py, restricted to the
fields process_confirmed_action sets. -/
structure ProcessedCommandResult where
  success : Bool
  message : String
  intent : IntentType
  entities : List (String × String)
  suggestions : List String
deriving DecidableEq, Repr

/-- process_confirmed_action: look the record up through
get_confirmation_status, and when it is present and confirmed produce the
placeholder result and delete the record. -/
def process_confirmed_action (now : Nat) (id : String) (s : ConfStore) :
    Option ProcessedCommandResult × ConfStore :=
  let gs := get_confirmation_status now id s
  match gs.1 with
  | some c =>
    if c.is_confirmed then
      (some { success := true,
              message := "Confirmed and executed: " ++ c.action_to_confirm,
              intent := c.original_command.intent,
              entities := c.original_command.entities,
              suggestions := ["What else can I help you with?"] },
       aerase id gs.2)
    else (none, gs.2)
  | none => (none, gs.2)

/-- Stores reachable through any sequence of confirmation-service
operations, starting from the empty dict. -/
inductive ConfReach : ConfStore → Prop
  | empty : ConfReach []
  | create (now : Nat) (id : String) (cmd : NaturalLanguageCommand)
      (action : String) (ctype : ConfirmationType) (msg : Option String)
      {s : ConfStore} :
      ConfReach s →
      ConfReach (create_confirmation_request now id cmd action ctype msg s).2
  | confirm (now : Nat) (id : String) {s : ConfStore} :
      ConfReach s → ConfReach (confirm_action now id s).2
  | reject (now : Nat) (id : String) {s : ConfStore} :
      ConfReach s → ConfReach (reject_action now id s).2
  | status (now : Nat) (id : String) {s : ConfStore} :
      ConfReach s → ConfReach (get_confirmation_status now id s).2
  | process (now : Nat) (id : String) {s : ConfStore} :
      ConfReach s → ConfReach (process_confirmed_action now id s).2

/-! ## Conversation state and chat workflow: services/conversation_state.py
and orchestrator/workflow.py.

The orchestration agent's reply to a message is external to these two
files; its result dictionary is summarised by two oracle parameters, the
requires_follow_up flag and the response text.  The agent never touches
the conversation store (it does not import the manager), so the store is
mutated exactly where the workflow methods mutate it. -/

/-- The pending_action dict stored by start_confirmation_flow. -/
structure PendingAction where
  ptype : String
  action : String
  details : List (String × String)
  timestamp : Nat
deriving DecidableEq, Repr

/-- One conversation record of ConversationState. -/
structure Conversation where
  user_id : String
  created_at : Nat
  last_updated : Nat
  state : String
  messages : List (String × String × Nat)
  context : List (String × String)
  pending_action : Option PendingAction
  expires_at : Nat
deriving DecidableEq, Repr

/-- The conversations dict of ConversationState. -/
abbrev ConvStore := List (String × Conversation)

/-- Conversation time-to-live (24 hours; time is counted in hours here). -/
def conversation_ttl : Nat := 24

/-- create_conversation at time now with a caller-supplied uuid. -/
def create_conversation (now : Nat) (cid uid : String) (s : ConvStore) :
    ConvStore :=
  ainsert cid
    { user_id := uid, created_at := now, last_updated := now,
      state := "ACTIVE", messages := [], context := [],
      pending_action := none, expires_at := now + conversation_ttl } s

/-- end_conversation: drop the record. -/
def end_conversation (cid : String) (s : ConvStore) : ConvStore := aerase cid s

/-- get_conversation: purge on expiry (lazy TTL), else return the record. -/
def get_conversation (now : Nat) (cid : String) (s : ConvStore) :
    Option Conversation × ConvStore :=
  match alookup cid s with
  | some c =>
    if now > c.expires_at then (none, end_conversation cid s) else (some c, s)
  | none => (none, s)

/-- update_conversation_state: unconditional overwrite when the id exists. -/
def update_conversation_state (now : Nat) (cid new_state : String)
    (s : ConvStore) : ConvStore :=
  amodify cid (fun c => { c with state := new_state, last_updated := now }) s

/-- add_message: append to the history. -/
def add_message (now : Nat) (cid role content : String) (s : ConvStore) :
    ConvStore :=
  amodify cid
    (fun c =>
      { c with
        messages := c.messages ++ [(role, content, now)]
        last_updated := now }) s

/-- set_pending_action. -/
def set_pending_action (now : Nat) (cid : String) (a : PendingAction)
    (s : ConvStore) : ConvStore :=
  amodify cid (fun c => { c with pending_action := some a, last_updated := now }) s

/-- get_pending_action. -/
def get_pending_action (cid : String) (s : ConvStore) : Option PendingAction :=
  (alookup cid s).bind (fun c => c.pending_action)

/-- clear_pending_action. -/
def clear_pending_action (now : Nat) (cid : String) (s : ConvStore) :
    ConvStore :=
  amodify cid (fun c => { c with pending_action := none, last_updated := now }) s

/-- workflow.process_chat_message: resolve or create the conversation,
append the user message, read the pending action, run the orchestration
agent, then set the state per requires_follow_up and append the assistant
message.  With a pending action the agent call is
handle_conversation_step, whose confirmation handling may require
follow-up (stepFollowUp, its oracle); with none it is
process_user_message, every branch of which yields requires_follow_up
False: each early return writes the key as the literal False (the
invalid-command branch reads requires_confirmation from
validator.validate_command, which never returns that key), and the
success branch returns the compose_final_response dict, which spells its
flag follow_up_required, so the workflow read result.get of
requires_follow_up with default False takes the default.  Hence the flag
is the conjunction below.  Returns the store and the conversation id
used. -/
def process_chat_message (now : Nat) (conversation_id : Option String)
    (fresh_id uid user_message : String) (stepFollowUp : Bool)
    (agentResponse : String) (s : ConvStore) : ConvStore × String :=
  let start :=
    match conversation_id with
    | none => (fresh_id, create_conversation now fresh_id uid s)
    | some cid0 =>
      let gs := get_conversation now cid0 s
      match gs.1 with
      | none => (fresh_id, create_conversation now fresh_id uid gs.2)
      | some _ => (cid0, gs.2)
  let cid := start.1
  let s := add_message now cid "user" user_message start.2
  let requires_follow_up := (get_pending_action cid s).isSome && stepFollowUp
  let s :=
    if requires_follow_up then
      update_conversation_state now cid "AWAITING_CLARIFICATION" s
    else
      update_conversation_state now cid "ACTIVE" s
  let s := add_message now cid "assistant" agentResponse s
  (s, cid)

/-- workflow.process_clarification_response: bail out when the
conversation is gone (the lookup may purge an expired record), else append
both turns, force the state back to ACTIVE, and clear the pending action
unless the agent still requires follow-up. -/
def process_clarification_response (now : Nat) (cid : String)
    (user_response : String) (agentFollowUp : Bool) (agentResponse : String)
    (s : ConvStore) : ConvStore :=
  let gs := get_conversation now cid s
  match gs.1 with
  | none => gs.2
  | some _ =>
    let s := add_message now cid "user" user_response gs.2
    let s := add_message now cid "assistant" agentResponse s
    let s := update_conversation_state now cid "ACTIVE" s
    if agentFollowUp then s else clear_pending_action now cid s

/-- workflow.start_confirmation_flow: store the pending confirmation,
switch the state, and append the confirmation prompt. -/
def start_confirmation_flow (now : Nat) (cid action : String)
    (details : List (String × String)) (s : ConvStore) : ConvStore :=
  let pending : PendingAction :=
    { ptype := "confirmation_required", action := action, details := details,
      timestamp := now }
  let s := set_pending_action now cid pending s
  let s := update_conversation_state now cid "CONFIRMATION_REQUIRED" s
  let msg0 := "Please confirm that you want to " ++ action
  let msg1 :=
    match alookup "task_title" details with
    | some t => msg0 ++ " for task \x27" ++ t ++ "\x27"
    | none => msg0
  add_message now cid "assistant"
    (msg1 ++ ". Respond with \x27yes\x27 to confirm or \x27no\x27 to cancel.") s

/-- Affirmative keywords of handle_confirmation_response. -/
def confirm_words : List String :=
  ["yes", "y", "confirm", "ok", "sure", "affirmative", "proceed"]

/-- Negative keywords of handle_confirmation_response. -/
def deny_words : List String := ["no", "n", "deny", "cancel", "stop", "reject"]

/-- workflow.handle_confirmation_response: with no pending action the
message is re-routed through process_chat_message; otherwise the reply is
keyword-matched, and on a clear yes or no the pending action is cleared
and the state reset to ACTIVE, while an unclear reply re-prompts and keeps
the pending action. -/
def handle_confirmation_response (now : Nat) (cid user_response uid : String)
    (fresh_id : String) (pcmFollowUp : Bool) (pcmResponse : String)
    (s : ConvStore) : ConvStore :=
  match get_pending_action cid s with
  | none =>
    (process_chat_message now (some cid) fresh_id uid user_response
      pcmFollowUp pcmResponse s).1
  | some pa =>
    let low := stripChars (lowerChars user_response.data)
    let confirmed := confirm_words.any (fun w => containsSub w.data low)
    let denied := deny_words.any (fun w => containsSub w.data low)
    if confirmed then
      let s := clear_pending_action now cid s
      let s := update_conversation_state now cid "ACTIVE" s
      let s := add_message now cid "user" user_response s
      add_message now cid "assistant"
        ("Confirmed. " ++ pa.action ++ " has been executed.") s
    else if denied then
      let s := clear_pending_action now cid s
      let s := update_conversation_state now cid "ACTIVE" s
      let s := add_message now cid "user" user_response s
      add_message now cid "assistant" "Action cancelled as requested." s
    else
      let s := add_message now cid "user" user_response s
      add_message now cid "assistant"
        ("I didn\x27t understand your response. Please respond with "
          ++ "\x27yes\x27 to confirm or \x27no\x27 to cancel.") s

/-- Conversation stores reachable through the four workflow operations,
starting from the empty store, for arbitrary oracle replies of the
orchestration agent. -/
inductive WorkflowReach : ConvStore → Prop
  | empty : WorkflowReach []
  | chat (now : Nat) (cidOpt : Option String) (fresh uid msg : String)
      (fu : Bool) (resp : String) {s : ConvStore} :
      WorkflowReach s →
      WorkflowReach (process_chat_message now cidOpt fresh uid msg fu resp s).1
  | clarify (now : Nat) (cid resp : String) (fu : Bool) (text : String)
      {s : ConvStore} :
      WorkflowReach s →
      WorkflowReach (process_clarification_response now cid resp fu text s)
  | confirmStart (now : Nat) (cid action : String)
      (details : List (String × String)) {s : ConvStore} :
      WorkflowReach s →
      WorkflowReach (start_confirmation_flow now cid action details s)
  | confirmReply (now : Nat) (cid resp uid fresh : String) (fu : Bool)
      (text : String) {s : ConvStore} :
      WorkflowReach s →
      WorkflowReach (handle_confirmation_response now cid resp uid fresh fu text s)

/-- Conversation invariant of §3: a stored conversation with no pending
operation is in state ACTIVE. -/
def statePendingInv (s : ConvStore) : Prop :=
  ∀ cid conv, alookup cid s = some conv → conv.pending_action = none →
    conv.state = "ACTIVE"

/-! # Lemmas and theorems -/

/-! ## Association-list lemmas -/

theorem alookup_ainsert_self {α : Type} (k : String) (v : α)
    (s : List (String × α)) : alookup k (ainsert k v s) = some v := by
  induction s with
  | nil => simp [ainsert, alookup]
  | cons p ps ih =>
    by_cases h : p.1 = k
    · simp [ainsert, alookup, h]
    · simp [ainsert, alookup, h, ih]

theorem alookup_ainsert_ne {α : Type} {k k' : String} (v : α)
    (s : List (String × α)) (h : k' ≠ k) :
    alookup k' (ainsert k v s) = alookup k' s := by
  have hkk : ¬ k = k' := fun hh => h hh.symm
  induction s with
  | nil => simp [ainsert, alookup, hkk]
  | cons p ps ih =>
    by_cases hp : p.1 = k
    · have hp' : ¬ p.1 = k' := by rw [hp]; exact hkk
      simp [ainsert, alookup, hp, hp', h, hkk]
    · by_cases hp' : p.1 = k'
      · simp [ainsert, alookup, hp, hp', h, hkk]
      · simp [ainsert, alookup, hp, hp', h, hkk, ih]

theorem alookup_aerase_self {α : Type} (k : String) (s : List (String × α)) :
    alookup k (aerase k s) = none := by
  induction s with
  | nil => simp [aerase, alookup]
  | cons p ps ih =>
    by_cases h : p.1 = k
    · simpa [aerase, alookup, h] using ih
    · simpa [aerase, alookup, h] using ih

theorem alookup_aerase_ne {α : Type} {k k' : String} (s : List (String × α))
    (h : k' ≠ k) : alookup k' (aerase k s) = alookup k' s := by
  have hkk : ¬ k = k' := fun hh => h hh.symm
  induction s with
  | nil => simp [aerase, alookup]
  | cons p ps ih =>
    by_cases hp : p.1 = k
    · have hp' : ¬ p.1 = k' := by rw [hp]; exact hkk
      simpa [aerase, alookup, hp, hp', h, hkk] using ih
    · by_cases hp' : p.1 = k'
      · simp [aerase, alookup, hp, hp', h, hkk]
      · simpa [aerase, alookup, hp, hp', h, hkk] using ih

theorem alookup_amodify_self {α : Type} (k : String) (f : α → α)
    (s : List (String × α)) :
    alookup k (amodify k f s) = (alookup k s).map f := by
  induction s with
  | nil => simp [amodify, alookup]
  | cons p ps ih =>
    by_cases h : p.1 = k
    · simp [amodify, alookup, h]
    · simpa [amodify, alookup, h] using ih

theorem alookup_amodify_ne {α : Type} {k k' : String} (f : α → α)
    (s : List (String × α)) (h : k' ≠ k) :
    alookup k' (amodify k f s) = alookup k' s := by
  have hkk : ¬ k = k' := fun hh => h hh.symm
  induction s with
  | nil => simp [amodify, alookup]
  | cons p ps ih =>
    by_cases hp : p.1 = k
    · have hp' : ¬ p.1 = k' := by rw [hp]; exact hkk
      simpa [amodify, alookup, hp, hp', h, hkk] using ih
    · by_cases hp' : p.1 = k'
      · simp [amodify, alookup, hp, hp', h, hkk]
      · simpa [amodify, alookup, hp, hp', h, hkk] using ih

/-! ## Confirmation-service theorems (claims C4, C5, C6) -/

/-- C4.  Confirmation lifecycle: a request created at time now (default
TTL five minutes) is not expired at creation; at any time t past
expires_at, confirm_action fails and get_confirmation_status reports not
found; confirming at a live time t1 succeeds, a first
process_confirmed_action at a live time t2 succeeds, and a second
process_confirmed_action on the same id fails, the record having been
deleted by the first. -/
theorem c4_confirmation_lifecycle (now t t1 t2 t3 : Nat) (id : String)
    (cmd : NaturalLanguageCommand) (action : String) (s0 : ConfStore)
    (ht : now + 5 < t) (h1 : t1 ≤ now + 5) (h2 : t2 ≤ now + 5) :
    let cr := create_confirmation_request now id cmd action
      .DESTRUCTIVE_ACTION none s0
    is_expired now cr.1 = false ∧
    (confirm_action t id cr.2).1 = false ∧
    (get_confirmation_status t id cr.2).1 = none ∧
    (confirm_action t1 id cr.2).1 = true ∧
    ((process_confirmed_action t2 id (confirm_action t1 id cr.2).2).1).isSome
      = true ∧
    (process_confirmed_action t3 id
      (process_confirmed_action t2 id (confirm_action t1 id cr.2).2).2).1
      = none := by
  intro cr
  have hnow : ¬ (now + 5 < now) := by omega
  have h1' : ¬ (now + 5 < t1) := by omega
  have h2' : ¬ (now + 5 < t2) := by omega
  refine ⟨?_, ?_, ?_, ?_, ?_, ?_⟩
  · simp [cr, create_confirmation_request, mkConfirmationRequest, is_expired,
      hnow]
  · simp [cr, create_confirmation_request, mkConfirmationRequest,
      confirm_action, is_expired, alookup_ainsert_self, ht]
  · simp [cr, create_confirmation_request, mkConfirmationRequest,
      get_confirmation_status, is_expired, alookup_ainsert_self, ht]
  · simp [cr, create_confirmation_request, mkConfirmationRequest,
      confirm_action, is_expired, alookup_ainsert_self, h1']
  · simp [cr, create_confirmation_request, mkConfirmationRequest,
      confirm_action, is_expired, alookup_ainsert_self, h1',
      process_confirmed_action, get_confirmation_status, h2']
  · simp [cr, create_confirmation_request, mkConfirmationRequest,
      confirm_action, is_expired, alookup_ainsert_self, h1',
      process_confirmed_action, get_confirmation_status, h2',
      alookup_aerase_self]

/-- Witness for c4_confirmation_lifecycle at concrete times. -/
theorem c4_confirmation_lifecycle_witness :
    (0 + 5 < 6 ∧ 1 ≤ 0 + 5 ∧ 2 ≤ 0 + 5) ∧
    (let cr := create_confirmation_request 0 "c1"
        { raw_input := "Delete all my tasks", intent := .DELETE_TASK }
        "delete all tasks" .DESTRUCTIVE_ACTION none []
     is_expired 0 cr.1 = false ∧
     (confirm_action 6 "c1" cr.2).1 = false ∧
     (get_confirmation_status 6 "c1" cr.2).1 = none ∧
     (confirm_action 1 "c1" cr.2).1 = true ∧
     ((process_confirmed_action 2 "c1" (confirm_action 1 "c1" cr.2).2).1).isSome
       = true ∧
     (process_confirmed_action 3 "c1"
       (process_confirmed_action 2 "c1" (confirm_action 1 "c1" cr.2).2).2).1
       = none) :=
  ⟨⟨by decide, by decide, by decide⟩,
   c4_confirmation_lifecycle 0 6 1 2 3 "c1"
     { raw_input := "Delete all my tasks", intent := .DELETE_TASK }
     "delete all tasks" [] (by decide) (by decide) (by decide)⟩

/-- C5 counterexample: on an expired record, confirm_action reports
failure but leaves the stale record in the store, so the claim that every
lookup operation purges expired records is false as stated. -/
theorem c5_counterexample :
    let s1 := (create_confirmation_request 0 "c1"
      { raw_input := "Delete all my tasks", intent := .DELETE_TASK }
      "delete all tasks" .DESTRUCTIVE_ACTION none []).2
    (confirm_action 6 "c1" s1).1 = false ∧
    (confirm_action 6 "c1" s1).2 = s1 ∧
    (alookup "c1" (confirm_action 6 "c1" s1).2).isSome = true := by
  refine ⟨by decide, by decide, by decide⟩

/-- C5 amended: on an expired record, get_confirmation_status and
process_confirmed_action purge it and report not found, while
confirm_action and reject_action report failure but leave the store
unchanged. -/
theorem c5_expired_lookup (now : Nat) (id : String) (s : ConfStore)
    (c : ConfirmationRequest) (hfind : alookup id s = some c)
    (hexp : c.expires_at < now) :
    get_confirmation_status now id s = (none, aerase id s) ∧
    process_confirmed_action now id s = (none, aerase id s) ∧
    confirm_action now id s = (false, s) ∧
    reject_action now id s = (false, s) := by
  refine ⟨?_, ?_, ?_, ?_⟩
  · simp [get_confirmation_status, hfind, is_expired, hexp]
  · simp [process_confirmed_action, get_confirmation_status, hfind,
      is_expired, hexp]
  · simp [confirm_action, hfind, is_expired, hexp]
  · simp [reject_action, hfind, is_expired, hexp]

/-- Witness for c5_expired_lookup on a concrete expired store. -/
theorem c5_expired_lookup_witness :
    let req := mkConfirmationRequest "c1" 0 .DESTRUCTIVE_ACTION "m"
      { raw_input := "Delete all my tasks", intent := .DELETE_TASK }
      "delete all tasks"
    alookup "c1" [("c1", req)] = some req ∧ req.expires_at < 6 ∧
    (get_confirmation_status 6 "c1" [("c1", req)]
        = (none, aerase "c1" [("c1", req)]) ∧
     process_confirmed_action 6 "c1" [("c1", req)]
        = (none, aerase "c1" [("c1", req)]) ∧
     confirm_action 6 "c1" [("c1", req)] = (false, [("c1", req)]) ∧
     reject_action 6 "c1" [("c1", req)] = (false, [("c1", req)])) :=
  ⟨rfl, by decide, c5_expired_lookup 6 "c1" _ _ rfl (by decide)⟩

/-- Flags invariant of the confirmation store: no stored request is both
confirmed and rejected. -/
def ConfInv (s : ConfStore) : Prop :=
  ∀ id c, alookup id s = some c →
    ¬ (c.is_confirmed = true ∧ c.is_rejected = true)

theorem confInv_aerase {s : ConfStore} (h : ConfInv s) (k : String) :
    ConfInv (aerase k s) := by
  intro id c hc
  by_cases hk : id = k
  · subst hk
    rw [alookup_aerase_self] at hc
    cases hc
  · rw [alookup_aerase_ne _ hk] at hc
    exact h id c hc

theorem confInv_ainsert {s : ConfStore} (h : ConfInv s) (k : String)
    (v : ConfirmationRequest)
    (hv : ¬ (v.is_confirmed = true ∧ v.is_rejected = true)) :
    ConfInv (ainsert k v s) := by
  intro id c hc
  by_cases hk : id = k
  · subst hk
    rw [alookup_ainsert_self] at hc
    cases hc
    exact hv
  · rw [alookup_ainsert_ne _ _ hk] at hc
    exact h id c hc

theorem confInv_create {s : ConfStore} (h : ConfInv s) (now : Nat)
    (id : String) (cmd : NaturalLanguageCommand) (action : String)
    (ctype : ConfirmationType) (msg : Option String) :
    ConfInv (create_confirmation_request now id cmd action ctype msg s).2 := by
  unfold create_confirmation_request
  exact confInv_ainsert h id _ (by simp [mkConfirmationRequest])

theorem confInv_confirm {s : ConfStore} (h : ConfInv s) (now : Nat)
    (id : String) : ConfInv (confirm_action now id s).2 := by
  unfold confirm_action
  cases hl : alookup id s with
  | none => exact h
  | some c0 =>
    cases hexp : is_expired now c0 with
    | true => simpa [hexp] using h
    | false =>
      simp only [hexp, Bool.not_false, if_true]
      exact confInv_ainsert h id _ (by simp)

theorem confInv_reject {s : ConfStore} (h : ConfInv s) (now : Nat)
    (id : String) : ConfInv (reject_action now id s).2 := by
  unfold reject_action
  cases hl : alookup id s with
  | none => exact h
  | some c0 =>
    cases hexp : is_expired now c0 with
    | true => simpa [hexp] using h
    | false =>
      simp only [hexp, Bool.not_false, if_true]
      exact confInv_aerase h id

theorem confInv_status {s : ConfStore} (h : ConfInv s) (now : Nat)
    (id : String) : ConfInv (get_confirmation_status now id s).2 := by
  unfold get_confirmation_status
  cases hl : alookup id s with
  | none => exact h
  | some c0 =>
    cases hexp : is_expired now c0 with
    | true =>
      simp only [hexp, if_true]
      exact confInv_aerase h id
    | false => simpa [hexp] using h

theorem confInv_process {s : ConfStore} (h : ConfInv s) (now : Nat)
    (id : String) : ConfInv (process_confirmed_action now id s).2 := by
  have h2 := confInv_status h now id
  cases hg : (get_confirmation_status now id s).1 with
  | none => simpa [process_confirmed_action, hg] using h2
  | some c0 =>
    cases hcf : c0.is_confirmed with
    | false => simpa [process_confirmed_action, hg, hcf] using h2
    | true =>
      simpa [process_confirmed_action, hg, hcf] using confInv_aerase h2 id

/-- Preservation of the flags invariant along every reachable store. -/
theorem confReach_confInv {s : ConfStore} (h : ConfReach s) : ConfInv s := by
  induction h with
  | empty => intro id c hc; simp [alookup] at hc
  | create now id' cmd action ctype msg hs ih =>
    exact confInv_create ih _ _ _ _ _ _
  | confirm now id' hs ih => exact confInv_confirm ih _ _
  | reject now id' hs ih => exact confInv_reject ih _ _
  | status now id' hs ih => exact confInv_status ih _ _
  | process now id' hs ih => exact confInv_process ih _ _

/-- C6.  In every store reachable through any sequence of
confirmation-service operations, no stored request has is_confirmed and
is_rejected both true. -/
theorem c6_flags_invariant (s : ConfStore) (h : ConfReach s) (id : String)
    (c : ConfirmationRequest) (hc : alookup id s = some c) :
    ¬ (c.is_confirmed = true ∧ c.is_rejected = true) :=
  confReach_confInv h id c hc

/-- Witness for c6_flags_invariant on a store reached by one create and
one confirm. -/
theorem c6_flags_invariant_witness :
    let s1 := (create_confirmation_request 0 "c1"
      { raw_input := "Delete all my tasks", intent := .DELETE_TASK }
      "delete all tasks" .DESTRUCTIVE_ACTION none []).2
    let s2 := (confirm_action 1 "c1" s1).2
    ∃ c, alookup "c1" s2 = some c ∧
      ¬ (c.is_confirmed = true ∧ c.is_rejected = true) :=
  ⟨_, rfl,
   c6_flags_invariant _
     (ConfReach.confirm 1 "c1"
       (ConfReach.create 0 "c1" _ _ _ _ ConfReach.empty))
     "c1" _ rfl⟩

/-! ## Classifier theorems (claim C8) -/

theorem bestStep_inv (tl : List Char) (b : IntentType × Nat) (i : IntentType)
    (hb : b = (.UNKNOWN, 0) ∨ (b.2 = patternScore tl b.1 ∧ 0 < b.2)) :
    bestStep tl b i = (.UNKNOWN, 0) ∨
      ((bestStep tl b i).2 = patternScore tl (bestStep tl b i).1 ∧
        0 < (bestStep tl b i).2) := by
  unfold bestStep
  by_cases h : patternScore tl i > b.2
  · right
    simp [h]
    omega
  · simp only [h, if_false]
    exact hb

theorem foldl_bestStep_inv (tl : List Char) (l : List IntentType)
    (b : IntentType × Nat)
    (hb : b = (.UNKNOWN, 0) ∨ (b.2 = patternScore tl b.1 ∧ 0 < b.2)) :
    l.foldl (bestStep tl) b = (.UNKNOWN, 0) ∨
      ((l.foldl (bestStep tl) b).2 =
          patternScore tl (l.foldl (bestStep tl) b).1 ∧
        0 < (l.foldl (bestStep tl) b).2) := by
  induction l generalizing b with
  | nil => exact hb
  | cons i l ih => exact ih (bestStep tl b i) (bestStep_inv tl b i hb)

theorem foldl_bestStep_le_start (tl : List Char) (l : List IntentType)
    (b : IntentType × Nat) : b.2 ≤ (l.foldl (bestStep tl) b).2 := by
  induction l generalizing b with
  | nil => exact Nat.le_refl _
  | cons i l ih =>
    refine Nat.le_trans ?_ (ih (bestStep tl b i))
    unfold bestStep
    by_cases h : patternScore tl i > b.2
    · simp [h]
      omega
    · simp [h]

theorem foldl_bestStep_ge (tl : List Char) (l : List IntentType)
    (b : IntentType × Nat) (i : IntentType) (hi : i ∈ l) :
    patternScore tl i ≤ (l.foldl (bestStep tl) b).2 := by
  induction l generalizing b with
  | nil => cases hi
  | cons j l ih =>
    rcases List.mem_cons.mp hi with h | h
    · subst h
      refine Nat.le_trans ?_ (foldl_bestStep_le_start tl l (bestStep tl b i))
      unfold bestStep
      by_cases h : patternScore tl i > b.2
      · simp [h]
      · simp [h]
        omega
    · exact ih (bestStep tl b j) h

theorem foldl_bestStep_zero (tl : List Char) (l : List IntentType)
    (h : ∀ i ∈ l, patternScore tl i = 0) :
    l.foldl (bestStep tl) (.UNKNOWN, 0) = (.UNKNOWN, 0) := by
  induction l with
  | nil => rfl
  | cons i l ih =>
    have hi : patternScore tl i = 0 := h i (List.mem_cons_self ..)
    have hstep : bestStep tl (.UNKNOWN, 0) i = (.UNKNOWN, 0) := by
      simp [bestStep, hi]
    rw [List.foldl_cons, hstep]
    exact ih (fun j hj => h j (List.mem_cons_of_mem _ hj))

/-- C8.  The rule-based classification contract: the confidence lies in
[0,1] and the intent in the enumerated intent set; when no pattern of any
intent occurs in the lower-cased stripped text the result is
(UNKNOWN, 0); otherwise the winner has a positive score and the
confidence equals its matched count over its pattern total, clamped to
one. -/
theorem c8_classifier_contract (text : String) :
    (0 ≤ (rule_based_classify text).2 ∧ (rule_based_classify text).2 ≤ 1) ∧
    (rule_based_classify text).1 ∈
      [IntentType.CREATE_TASK, .UPDATE_TASK, .DELETE_TASK, .LIST_TASKS,
       .SEARCH_TASKS, .FILTER_TASKS, .COMPLETE_TASK, .GET_USER_INFO,
       .UNKNOWN] ∧
    ((∀ i ∈ intentOrder,
        patternScore (stripChars (lowerChars text.data)) i = 0) →
      rule_based_classify text = (.UNKNOWN, 0)) ∧
    ((∃ i ∈ intentOrder,
        0 < patternScore (stripChars (lowerChars text.data)) i) →
      0 < patternScore (stripChars (lowerChars text.data))
            (rule_based_classify text).1 ∧
      (rule_based_classify text).2 =
        min ((patternScore (stripChars (lowerChars text.data))
                (rule_based_classify text).1 : ℚ) /
             ((intentPatterns (rule_based_classify text).1).length : ℚ)) 1) := by
  refine ⟨?_, ?_, ?_, ?_⟩
  · simp only [rule_based_classify]
    split
    · exact ⟨le_min (div_nonneg (Nat.cast_nonneg _) (Nat.cast_nonneg _))
        zero_le_one, min_le_right _ _⟩
    · simp
  · cases h : (rule_based_classify text).1 <;> simp
  · intro hall
    have hz := foldl_bestStep_zero (stripChars (lowerChars text.data))
      intentOrder hall
    simp [rule_based_classify, bestIntent, hz]
  · rintro ⟨i, hi, hsc⟩
    have hge := foldl_bestStep_ge (stripChars (lowerChars text.data))
      intentOrder (.UNKNOWN, 0) i hi
    have hpos : 0 < (bestIntent (stripChars (lowerChars text.data))).2 :=
      Nat.lt_of_lt_of_le hsc hge
    rcases foldl_bestStep_inv (stripChars (lowerChars text.data)) intentOrder
        (.UNKNOWN, 0) (Or.inl rfl) with h1 | ⟨h2, _⟩
    · rw [show intentOrder.foldl
          (bestStep (stripChars (lowerChars text.data))) (.UNKNOWN, 0) =
          bestIntent (stripChars (lowerChars text.data)) from rfl] at h1
      rw [h1] at hpos
      cases hpos
    · rw [show intentOrder.foldl
          (bestStep (stripChars (lowerChars text.data))) (.UNKNOWN, 0) =
          bestIntent (stripChars (lowerChars text.data)) from rfl] at h2
      have heq : rule_based_classify text =
          ((bestIntent (stripChars (lowerChars text.data))).1,
           min (((bestIntent (stripChars (lowerChars text.data))).2 : ℚ) /
             ((intentPatterns
               (bestIntent (stripChars (lowerChars text.data))).1).length : ℚ))
             1) := by
        simp [rule_based_classify, hpos]
      rw [heq]
      constructor
      · simpa [← h2] using hpos
      · rw [h2]

/-! ## Validator theorems (claims C10 and C1) -/

/-- C10.  The code bug behind the claim: for every command whose intent is
CREATE_TASK, validate_task_operation raises NameError, because the
Python local named entities is only assigned inside the
destructive-operations branch, which CREATE_TASK never takes, yet line
249 reads it on the CREATE_TASK branch.  The claim that the function is
total therefore fails on exactly this branch. -/
theorem c10_create_task_raises (cmd : NaturalLanguageCommand)
    (h : cmd.intent = .CREATE_TASK) :
    validate_task_operation cmd = .error .nameErrorEntities := by
  rcases cmd with ⟨raw, ci, ents, conf⟩
  cases h
  rfl

/-- Witness for c10_create_task_raises at the concrete create command. -/
theorem c10_create_task_raises_witness :
    ({ raw_input := "add a task to buy milk", intent := .CREATE_TASK,
       entities := [("task_title", "buy milk")] } :
        NaturalLanguageCommand).intent = .CREATE_TASK ∧
    validate_task_operation
      { raw_input := "add a task to buy milk", intent := .CREATE_TASK,
        entities := [("task_title", "buy milk")] } =
      .error .nameErrorEntities :=
  ⟨rfl, c10_create_task_raises _ rfl⟩

/-- C1.  The code bug behind the claim: the input "Delete all my tasks"
classifies as DELETE_TASK, but rule-based extraction produces no
entities, so neither the bulk-term check on search_term and task_title
nor the raw-text check (whose keyword list has no term matching this
phrasing) fires, and validate_task_operation returns is_valid true with
requires_confirmation false instead of the claimed confirmation signal. -/
theorem c1_validator_passes_bulk_delete :
    (rule_based_classify "Delete all my tasks").1 = .DELETE_TASK ∧
    rule_based_extract "Delete all my tasks" = [] ∧
    validate_task_operation
      { raw_input := "Delete all my tasks", intent := .DELETE_TASK,
        entities := rule_based_extract "Delete all my tasks" } =
      .ok taskOpValid :=
  ⟨by decide, by decide, rfl⟩

/-! ## Entity-extraction theorems (claim C9) -/

/-- C9 counterexample: on "Find tasks with project in the title" the
extractor's search_term is the whole trailing phrase, not "project": the
lazy capture group must extend to the end of the string because the
input has no sentence-ending punctuation. -/
theorem c9_counterexample :
    alookup "search_term"
        (rule_based_extract "Find tasks with project in the title") =
      some "project in the title" ∧
    alookup "search_term"
        (rule_based_extract "Find tasks with project in the title") ≠
      some "project" :=
  ⟨by decide, by decide⟩

/-- C9 amended: the classification is SEARCH_TASKS as claimed, and the
extracted entities are search_term = "project in the title" with
task_title back-filled to the same value. -/
theorem c9_search_extraction :
    (rule_based_classify "Find tasks with project in the title").1 =
      .SEARCH_TASKS ∧
    rule_based_extract "Find tasks with project in the title" =
      [("search_term", "project in the title"),
       ("task_title", "project in the title")] :=
  ⟨by decide, by decide⟩

/-! ## Hierarchical multi-intent theorems (claim C2) -/

/-- C2 code bug: the hierarchical multi-intent path cannot run at all.
Building the intent_priority_map dict dereferences IntentType.SORT_TASKS
(and, further down, IntentType.CANCELLED), members the IntentType enum of
models/command.py does not declare, so the module-level instantiation of
MultiIntentProcessor raises AttributeError and the module fails to
import; independently, the classification pass of _process_hierarchically
calls nlp_intent_agent.classify_intent, a method NLPIntentAgent does not
define.  No statement list is ever classified and sorted by the table. -/
theorem c2_hierarchical_unreachable :
    intent_priority_map = .error (.attributeError "SORT_TASKS") ∧
    "classify_intent" ∉ nlp_intent_agent_methods :=
  ⟨rfl, by decide⟩

/-! ## Conversation-workflow theorems (claim C3) -/

theorem spInv_aerase {s : ConvStore} (h : statePendingInv s) (k : String) :
    statePendingInv (aerase k s) := by
  intro id conv hl hp
  by_cases hk : id = k
  · subst hk
    rw [alookup_aerase_self] at hl
    cases hl
  · rw [alookup_aerase_ne _ hk] at hl
    exact h id conv hl hp

theorem spInv_amodify_keep {s : ConvStore} (h : statePendingInv s)
    (k : String) (f : Conversation → Conversation)
    (hf : ∀ c, (f c).pending_action = c.pending_action ∧
      (f c).state = c.state) :
    statePendingInv (amodify k f s) := by
  intro id conv hl hp
  by_cases hk : id = k
  · subst hk
    rw [alookup_amodify_self] at hl
    cases h0 : alookup id s with
    | none => rw [h0] at hl; cases hl
    | some c0 =>
      rw [h0] at hl
      cases hl
      rw [(hf c0).2]
      exact h id c0 h0 (by rw [← (hf c0).1]; exact hp)
  · rw [alookup_amodify_ne _ _ hk] at hl
    exact h id conv hl hp

theorem spInv_add_message {s : ConvStore} (h : statePendingInv s) (now : Nat)
    (cid role content : String) :
    statePendingInv (add_message now cid role content s) :=
  spInv_amodify_keep h cid _ (fun _ => ⟨rfl, rfl⟩)

theorem spInv_update_active {s : ConvStore} (h : statePendingInv s)
    (now : Nat) (cid : String) :
    statePendingInv (update_conversation_state now cid "ACTIVE" s) := by
  intro id conv hl hp
  by_cases hk : id = cid
  · subst hk
    rw [update_conversation_state, alookup_amodify_self] at hl
    cases h0 : alookup id s with
    | none => rw [h0] at hl; cases hl
    | some c0 =>
      rw [h0] at hl
      cases hl
      rfl
  · rw [update_conversation_state, alookup_amodify_ne _ _ hk] at hl
    exact h id conv hl hp

/-- A state update at a cid whose stored conversation holds a pending
action preserves the invariant for any target state: the update keeps the
pending action, so the invariant is vacuous at that conversation. -/
theorem spInv_update_pending {s : ConvStore} (h : statePendingInv s)
    (now : Nat) (cid st : String) (pa : PendingAction)
    (hpa : get_pending_action cid s = some pa) :
    statePendingInv (update_conversation_state now cid st s) := by
  intro id conv hl hp
  by_cases hk : id = cid
  · subst hk
    rw [update_conversation_state, alookup_amodify_self] at hl
    cases h0 : alookup id s with
    | none => rw [h0] at hl; cases hl
    | some c0 =>
      rw [h0] at hl
      cases hl
      have hpa0 : c0.pending_action = some pa := by
        simpa [get_pending_action, h0] using hpa
      have hp0 : c0.pending_action = none := hp
      rw [hpa0] at hp0
      cases hp0
  · rw [update_conversation_state, alookup_amodify_ne _ _ hk] at hl
    exact h id conv hl hp

theorem spInv_create {s : ConvStore} (h : statePendingInv s) (now : Nat)
    (cid uid : String) :
    statePendingInv (create_conversation now cid uid s) := by
  intro id conv hl hp
  by_cases hk : id = cid
  · subst hk
    rw [create_conversation, alookup_ainsert_self] at hl
    cases hl
    rfl
  · rw [create_conversation, alookup_ainsert_ne _ _ hk] at hl
    exact h id conv hl hp

theorem spInv_get {s : ConvStore} (h : statePendingInv s) (now : Nat)
    (cid : String) : statePendingInv (get_conversation now cid s).2 := by
  unfold get_conversation
  cases hl : alookup cid s with
  | none => exact h
  | some c =>
    by_cases hexp : c.expires_at < now
    · simpa [hexp, end_conversation] using spInv_aerase h cid
    · simpa [hexp] using h

/-- Invariant after the tail of process_chat_message: user message, state
update per the follow-up flag (truthy only on the pending-action branch
of the agent), assistant message. -/
theorem spInv_chat_tail {s : ConvStore} (h : statePendingInv s) (now : Nat)
    (cid msg : String) (fu : Bool) (resp : String) :
    statePendingInv
      (add_message now cid "assistant" resp
        (if (get_pending_action cid (add_message now cid "user" msg s)).isSome
            && fu then
          update_conversation_state now cid "AWAITING_CLARIFICATION"
            (add_message now cid "user" msg s)
        else
          update_conversation_state now cid "ACTIVE"
            (add_message now cid "user" msg s))) := by
  have h1 := spInv_add_message h now cid "user" msg
  cases hpend : get_pending_action cid (add_message now cid "user" msg s) with
  | none =>
    rw [if_neg (by simp)]
    exact spInv_add_message (spInv_update_active h1 now cid)
      now cid "assistant" resp
  | some pa =>
    cases fu with
    | false =>
      rw [if_neg (by simp)]
      exact spInv_add_message (spInv_update_active h1 now cid)
        now cid "assistant" resp
    | true =>
      rw [if_pos (by simp)]
      exact spInv_add_message (spInv_update_pending h1 now cid _ pa hpend)
        now cid "assistant" resp

theorem spInv_chat {s : ConvStore} (h : statePendingInv s) (now : Nat)
    (cidOpt : Option String) (fresh uid msg : String) (fu : Bool)
    (resp : String) :
    statePendingInv (process_chat_message now cidOpt fresh uid msg fu resp s).1 := by
  rcases cidOpt with _ | cid0
  · exact spInv_chat_tail (spInv_create h now fresh uid) now fresh msg fu resp
  · cases hg : (get_conversation now cid0 s).1 with
    | none =>
      simpa only [process_chat_message, hg] using
        spInv_chat_tail (spInv_create (spInv_get h now cid0) now fresh uid)
          now fresh msg fu resp
    | some c =>
      simpa only [process_chat_message, hg] using
        spInv_chat_tail (spInv_get h now cid0) now cid0 msg fu resp

/-- Any conversation stored at cid right after an unconditional state
update carries the written state. -/
theorem state_after_update (now : Nat) (cid st : String) (s : ConvStore)
    (conv : Conversation)
    (hl : alookup cid (update_conversation_state now cid st s) = some conv) :
    conv.state = st := by
  rw [update_conversation_state, alookup_amodify_self] at hl
  cases h0 : alookup cid s with
  | none => rw [h0] at hl; cases hl
  | some c0 => rw [h0] at hl; cases hl; rfl

theorem spInv_clear_pending_of_state {s : ConvStore} (now : Nat)
    (cid : String) (h : statePendingInv s)
    (hstate : ∀ conv, alookup cid s = some conv → conv.state = "ACTIVE") :
    statePendingInv (clear_pending_action now cid s) := by
  intro id conv hl hp
  by_cases hk : id = cid
  · subst hk
    rw [clear_pending_action, alookup_amodify_self] at hl
    cases h0 : alookup id s with
    | none => rw [h0] at hl; cases hl
    | some c0 =>
      rw [h0] at hl
      cases hl
      exact hstate c0 h0
  · rw [clear_pending_action, alookup_amodify_ne _ _ hk] at hl
    exact h id conv hl hp

theorem spInv_clarify {s : ConvStore} (h : statePendingInv s) (now : Nat)
    (cid resp : String) (fu : Bool) (text : String) :
    statePendingInv (process_clarification_response now cid resp fu text s) := by
  cases hg : (get_conversation now cid s).1 with
  | none =>
    simpa only [process_clarification_response, hg] using spInv_get h now cid
  | some c =>
    have h1 := spInv_add_message (spInv_get h now cid) now cid "user" resp
    have h2 := spInv_add_message h1 now cid "assistant" text
    have h3 := spInv_update_active h2 now cid
    cases fu with
    | true => simpa only [process_clarification_response, hg, if_pos] using h3
    | false =>
      have h4 := spInv_clear_pending_of_state now cid h3
        (fun conv hconv => state_after_update now cid "ACTIVE" _ conv hconv)
      simpa only [process_clarification_response, hg, if_neg] using h4

theorem spInv_confirmStart {s : ConvStore} (h : statePendingInv s) (now : Nat)
    (cid action : String) (details : List (String × String)) :
    statePendingInv (start_confirmation_flow now cid action details s) := by
  intro id conv hl hp
  by_cases hk : id = cid
  · subst hk
    rw [start_confirmation_flow] at hl
    rw [add_message, update_conversation_state, set_pending_action] at hl
    rw [alookup_amodify_self, alookup_amodify_self, alookup_amodify_self] at hl
    cases h0 : alookup id s with
    | none => rw [h0] at hl; cases hl
    | some c0 =>
      rw [h0] at hl
      cases hl
      cases hp
  · rw [start_confirmation_flow] at hl
    rw [add_message, update_conversation_state, set_pending_action] at hl
    rw [alookup_amodify_ne _ _ hk, alookup_amodify_ne _ _ hk,
      alookup_amodify_ne _ _ hk] at hl
    exact h id conv hl hp

/-- Invariant after the clear-then-activate-then-log chain shared by the
confirmed and denied branches of handle_confirmation_response. -/
theorem spInv_clear_activate_log {s : ConvStore} (h : statePendingInv s)
    (now : Nat) (cid u a : String) :
    statePendingInv
      (add_message now cid "assistant" a
        (add_message now cid "user" u
          (update_conversation_state now cid "ACTIVE"
            (clear_pending_action now cid s)))) := by
  intro id conv hl hp
  by_cases hk : id = cid
  · subst hk
    rw [add_message, add_message, update_conversation_state,
      clear_pending_action] at hl
    rw [alookup_amodify_self, alookup_amodify_self, alookup_amodify_self,
      alookup_amodify_self] at hl
    cases h0 : alookup id s with
    | none => rw [h0] at hl; cases hl
    | some c0 =>
      rw [h0] at hl
      cases hl
      rfl
  · rw [add_message, add_message, update_conversation_state,
      clear_pending_action] at hl
    rw [alookup_amodify_ne _ _ hk, alookup_amodify_ne _ _ hk,
      alookup_amodify_ne _ _ hk, alookup_amodify_ne _ _ hk] at hl
    exact h id conv hl hp

theorem spInv_confirmReply {s : ConvStore} (h : statePendingInv s) (now : Nat)
    (cid resp uid fresh : String) (fu : Bool) (text : String) :
    statePendingInv
      (handle_confirmation_response now cid resp uid fresh fu text s) := by
  cases hg : get_pending_action cid s with
  | none =>
    simpa only [handle_confirmation_response, hg] using
      spInv_chat h now (some cid) fresh uid resp fu text
  | some pa =>
    by_cases hc : (confirm_words.any
        (fun w => containsSub w.data (stripChars (lowerChars resp.data)))) = true
    · simpa only [handle_confirmation_response, hg, hc, if_pos] using
        spInv_clear_activate_log h now cid resp
          ("Confirmed. " ++ pa.action ++ " has been executed.")
    · by_cases hd : (deny_words.any
          (fun w => containsSub w.data (stripChars (lowerChars resp.data)))) = true
      · simpa only [handle_confirmation_response, hg, hc, hd] using
          spInv_clear_activate_log h now cid resp
            "Action cancelled as requested."
      · simpa only [handle_confirmation_response, hg, hc, hd] using
          spInv_add_message
            (spInv_add_message h now cid "user" resp) now cid "assistant" _

/-- C3: in every store reachable through the workflow operations, a
conversation with no pending operation is in state ACTIVE (and at most
one pending operation exists per conversation, by construction of the
single pending_action slot).  The state AWAITING_CLARIFICATION is only
ever set when requires_follow_up is truthy, which over the real
orchestration agent happens only on the pending-action branch. -/
theorem c3_pending_state_invariant (s : ConvStore) (h : WorkflowReach s)
    (cid : String) (conv : Conversation)
    (hl : alookup cid s = some conv) (hp : conv.pending_action = none) :
    conv.state = "ACTIVE" := by
  induction h generalizing cid conv with
  | empty => cases hl
  | chat now cidOpt fresh uid msg fu resp hs ih =>
    exact spInv_chat (fun a b c d => ih a b c d) now cidOpt fresh uid msg fu
      resp cid conv hl hp
  | clarify now cid0 resp fu text hs ih =>
    exact spInv_clarify (fun a b c d => ih a b c d) now cid0 resp fu text
      cid conv hl hp
  | confirmStart now cid0 action details hs ih =>
    exact spInv_confirmStart (fun a b c d => ih a b c d) now cid0 action
      details cid conv hl hp
  | confirmReply now cid0 resp uid fresh fu text hs ih =>
    exact spInv_confirmReply (fun a b c d => ih a b c d) now cid0 resp uid
      fresh fu text cid conv hl hp

/-- Witness for c3_pending_state_invariant on a store reached by one
fresh message without follow-up. -/
theorem c3_pending_state_invariant_witness :
    ∃ conv,
      alookup "c1" (process_chat_message 0 none "c1" "u1" "hello there"
        false "Hi!" []).1 = some conv ∧
      conv.pending_action = none ∧ conv.state = "ACTIVE" :=
  ⟨_, rfl, rfl,
   c3_pending_state_invariant _
     (WorkflowReach.chat 0 none "c1" "u1" "hello there" false "Hi!"
       WorkflowReach.empty) "c1" _ rfl rfl⟩

/-! ## Decomposer theorems (claim C7): character and trim lemmas -/

theorem toNat_ofNat_valid (n : Nat) (h : n.isValidChar) :
    (Char.ofNat n).toNat = n := by
  simp [Char.ofNat, h, Char.toNat, Char.ofNatAux, UInt32.toNat,
    BitVec.toNat_ofNatLt]

theorem isWordChar_pyLowerChar (c : Char) :
    isWordChar (pyLowerChar c) = isWordChar c := by
  unfold pyLowerChar
  by_cases h : 65 ≤ c.toNat ∧ c.toNat ≤ 90
  · rw [if_pos h]
    have hv : Nat.isValidChar (c.toNat + 32) := Or.inl (by omega)
    have hL : isWordChar (Char.ofNat (c.toNat + 32)) = true := by
      unfold isWordChar
      rw [toNat_ofNat_valid _ hv]
      simp only [Bool.or_eq_true, Bool.and_eq_true, decide_eq_true_eq,
        beq_iff_eq]
      omega
    have hR : isWordChar c = true := by
      unfold isWordChar
      simp only [Bool.or_eq_true, Bool.and_eq_true, decide_eq_true_eq,
        beq_iff_eq]
      omega
    rw [hL, hR]
  · rw [if_neg h]

theorem dropWhile_idem (p : Char → Bool) (l : List Char) :
    (l.dropWhile p).dropWhile p = l.dropWhile p := by
  induction l with
  | nil => rfl
  | cons a l ih =>
    by_cases h : p a = true
    · simp [List.dropWhile_cons, h, ih]
    · simp [List.dropWhile_cons, h]

theorem dropWhile_head_false (p : Char → Bool) (l : List Char) (a : Char)
    (t : List Char) (h : l.dropWhile p = a :: t) : p a = false := by
  induction l with
  | nil => cases h
  | cons b l ih =>
    by_cases hb : p b = true
    · rw [List.dropWhile_cons, if_pos hb] at h
      exact ih h
    · rw [List.dropWhile_cons, if_neg hb] at h
      cases h
      exact Bool.not_eq_true _ ▸ hb

theorem getLast?_dropWhile (p : Char → Bool) (l : List Char)
    (h : l.dropWhile p ≠ []) :
    (l.dropWhile p).getLast? = l.getLast? := by
  obtain ⟨pre, hpre⟩ : ∃ pre, pre ++ l.dropWhile p = l :=
    List.dropWhile_suffix p
  conv_rhs => rw [← hpre]
  rw [List.getLast?_append]
  obtain ⟨x, hx⟩ := List.getLast?_isSome.mpr h |> Option.isSome_iff_exists.mp
  simp [hx]

theorem lstrip_stripChars (s : List Char) :
    (stripChars s).dropWhile isSpaceChar = stripChars s := by
  unfold stripChars lstripChars
  exact dropWhile_idem _ _

theorem getLast?_stripChars_false (s : List Char) (c : Char)
    (h : (stripChars s).getLast? = some c) : isSpaceChar c = false := by
  unfold stripChars lstripChars at h
  set B := (s.reverse.dropWhile isSpaceChar).reverse with hB
  have hne : B.dropWhile isSpaceChar ≠ [] := by
    intro hcon
    rw [hcon] at h
    cases h
  rw [getLast?_dropWhile _ _ hne] at h
  rw [hB, List.getLast?_reverse] at h
  cases hrd : s.reverse.dropWhile isSpaceChar with
  | nil => rw [hrd] at h; cases h
  | cons a t =>
    rw [hrd] at h
    cases h
    exact dropWhile_head_false _ _ _ _ hrd

theorem stripChars_idem (s : List Char) :
    stripChars (stripChars s) = stripChars s := by
  cases ht : stripChars s with
  | nil => rfl
  | cons a t =>
    rw [← ht]
    have hrev : (stripChars s).reverse.dropWhile isSpaceChar =
        (stripChars s).reverse := by
      cases hr : (stripChars s).reverse with
      | nil => rfl
      | cons c cs =>
        have hc : (stripChars s).getLast? = some c := by
          rw [← List.head?_reverse, hr]
          rfl
        rw [List.dropWhile_cons, if_neg (by
          rw [getLast?_stripChars_false s c hc]
          simp)]
    show lstripChars ((lstripChars (stripChars s).reverse)).reverse = _
    unfold lstripChars
    rw [hrev, List.reverse_reverse]
    exact lstrip_stripChars s

/-! ## Decomposer theorems (claim C7): engine lemmas -/

theorem charEq_mono (p c : Char) (h : charEq false p c = true) :
    charEq true p c = true := by
  have h' : decide (p = c) = true := h
  have hpc : p = c := of_decide_eq_true h'
  subst hpc
  simp [charEq]

theorem mmatch_ci_sub (fuel : Nat) :
    ∀ (re : Re) (ctx c2 : MCtx),
      c2 ∈ mmatch fuel false re ctx → c2 ∈ mmatch fuel true re ctx := by
  induction fuel with
  | zero => intro re ctx c2 h; simp [mmatch] at h
  | succ fuel ih =>
    intro re ctx c2 h
    cases re with
    | eps => exact h
    | ch c =>
      cases hr : ctx.rest with
      | nil => simp [mmatch, hr] at h
      | cons d tl =>
        simp only [mmatch, hr] at h ⊢
        by_cases hce : charEq false c d = true
        · rw [if_pos hce] at h
          rw [if_pos (charEq_mono c d hce)]
          exact h
        · rw [if_neg hce] at h
          cases h
    | cls neg items => exact h
    | dot => exact h
    | ws => exact h
    | wd => exact h
    | dig => exact h
    | alt a b =>
      simp only [mmatch, List.mem_append] at h ⊢
      rcases h with h | h
      · exact Or.inl (ih a ctx c2 h)
      · exact Or.inr (ih b ctx c2 h)
    | seq a b =>
      simp only [mmatch, List.mem_flatMap] at h ⊢
      obtain ⟨mid, hmid, hc2⟩ := h
      exact ⟨mid, ih a ctx mid hmid, ih b mid c2 hc2⟩
    | star g a =>
      have key : ∀ x, x ∈ (((mmatch fuel false a ctx).filter
            (fun m => m.rest.length < ctx.rest.length)).flatMap
          (fun m => mmatch fuel false (.star g a) m)) →
          x ∈ (((mmatch fuel true a ctx).filter
            (fun m => m.rest.length < ctx.rest.length)).flatMap
          (fun m => mmatch fuel true (.star g a) m)) := by
        intro x hx
        simp only [List.mem_flatMap, List.mem_filter] at hx ⊢
        obtain ⟨mid, ⟨hmem, hlen⟩, hx2⟩ := hx
        exact ⟨mid, ⟨ih a ctx mid hmem, hlen⟩, ih (.star g a) mid x hx2⟩
      cases g with
      | true =>
        have hf : mmatch (fuel+1) false (.star true a) ctx =
            (((mmatch fuel false a ctx).filter
              (fun m => m.rest.length < ctx.rest.length)).flatMap
              (fun m => mmatch fuel false (.star true a) m)) ++ [ctx] := rfl
        have ht : mmatch (fuel+1) true (.star true a) ctx =
            (((mmatch fuel true a ctx).filter
              (fun m => m.rest.length < ctx.rest.length)).flatMap
              (fun m => mmatch fuel true (.star true a) m)) ++ [ctx] := rfl
        rw [hf] at h
        rw [ht]
        rcases List.mem_append.mp h with h | h
        · exact List.mem_append.mpr (Or.inl (key c2 h))
        · exact List.mem_append.mpr (Or.inr h)
      | false =>
        have hf : mmatch (fuel+1) false (.star false a) ctx =
            ctx :: (((mmatch fuel false a ctx).filter
              (fun m => m.rest.length < ctx.rest.length)).flatMap
              (fun m => mmatch fuel false (.star false a) m)) := rfl
        have ht : mmatch (fuel+1) true (.star false a) ctx =
            ctx :: (((mmatch fuel true a ctx).filter
              (fun m => m.rest.length < ctx.rest.length)).flatMap
              (fun m => mmatch fuel true (.star false a) m)) := rfl
        rw [hf] at h
        rw [ht]
        rcases List.mem_cons.mp h with h | h
        · exact List.mem_cons.mpr (Or.inl h)
        · exact List.mem_cons.mpr (Or.inr (key c2 h))
    | grp n a =>
      simp only [mmatch, List.mem_map] at h ⊢
      obtain ⟨mid, hmid, heq⟩ := h
      exact ⟨mid, ih a ctx mid hmid, heq⟩
    | wb => exact h
    | nlbw => exact h
    | nla c => exact h
    | eos => exact h

theorem reHere_none {ci : Bool} {re : Re} {prev : Option Char}
    {s : List Char} (hm : mmatch (fuelFor s) ci re ⟨prev, s, []⟩ = []) :
    reHere ci re prev s = none := by
  unfold reHere
  rw [hm]

theorem reHere_none_rev {ci : Bool} {re : Re} {prev : Option Char}
    {s : List Char} (h : reHere ci re prev s = none) :
    mmatch (fuelFor s) ci re ⟨prev, s, []⟩ = [] := by
  unfold reHere at h
  cases hm : mmatch (fuelFor s) ci re ⟨prev, s, []⟩ with
  | nil => rfl
  | cons c2 cs => rw [hm] at h; cases h

theorem reFind_nil (ci : Bool) (re : Re) (prev : Option Char) :
    reFind ci re prev [] = reHere ci re prev [] := rfl

theorem reFind_cons (ci : Bool) (re : Re) (prev : Option Char) (d : Char)
    (tl : List Char) (hm : reHere ci re prev (d :: tl) = none) :
    reFind ci re prev (d :: tl) =
      (reFind ci re (some d) tl).map (fun r => { r with pre := d :: r.pre }) := by
  show (match reHere ci re prev (d :: tl) with
    | some m => some m
    | none => (reFind ci re (some d) tl).map
        (fun r : ReMatch => { r with pre := d :: r.pre })) = _
  rw [hm]

theorem reFind_none_head {ci : Bool} {re : Re} {prev : Option Char}
    {s : List Char} (h : reFind ci re prev s = none) :
    mmatch (fuelFor s) ci re ⟨prev, s, []⟩ = [] := by
  refine reHere_none_rev ?_
  cases s with
  | nil => exact (reFind_nil ci re prev) ▸ h
  | cons d tl =>
    cases hh : reHere ci re prev (d :: tl) with
    | none => rfl
    | some m =>
      exfalso
      have h2 : (match reHere ci re prev (d :: tl) with
        | some m => some m
        | none => (reFind ci re (some d) tl).map
            (fun r : ReMatch => { r with pre := d :: r.pre })) = none := h
      rw [hh] at h2
      cases h2

theorem mmatch_nil_mono {re : Re} {ctx : MCtx} {fuel : Nat}
    (hm : mmatch fuel true re ctx = []) : mmatch fuel false re ctx = [] := by
  cases hcs : mmatch fuel false re ctx with
  | nil => rfl
  | cons x xs =>
    have := mmatch_ci_sub fuel re ctx x (by rw [hcs]; exact List.mem_cons_self ..)
    rw [hm] at this
    cases this

theorem reFind_none_mono (re : Re) :
    ∀ (s : List Char) (prev : Option Char),
      reFind true re prev s = none → reFind false re prev s = none := by
  intro s
  induction s with
  | nil =>
    intro prev h
    rw [reFind_nil]
    exact reHere_none (mmatch_nil_mono (reFind_none_head h))
  | cons d tl ih =>
    intro prev h
    have hm := reFind_none_head h
    have htl : reFind true re (some d) tl = none := by
      rw [reFind_cons true re prev d tl (reHere_none hm)] at h
      cases hrec : reFind true re (some d) tl with
      | none => rfl
      | some m => rw [hrec] at h; cases h
    rw [reFind_cons false re prev d tl (reHere_none (mmatch_nil_mono hm)),
      ih (some d) htl]
    rfl

theorem prevAt_cons (prev : Option Char) (d : Char) (xs : List Char) :
    prevAt prev (d :: xs) = prevAt (some d) xs := by
  cases xs with
  | nil => rfl
  | cons y ys =>
    unfold prevAt
    rw [List.getLast?_cons_cons]
    cases hyl : (y :: ys).getLast? with
    | some c => rfl
    | none => simp at hyl

theorem reFind_none_all (re : Re) :
    ∀ (xs ys : List Char) (prev : Option Char),
      reFind true re prev (xs ++ ys) = none →
      mmatch (fuelFor ys) true re ⟨prevAt prev xs, ys, []⟩ = [] := by
  intro xs
  induction xs with
  | nil =>
    intro ys prev h
    simpa [prevAt] using reFind_none_head h
  | cons d xs ih =>
    intro ys prev h
    rw [prevAt_cons]
    refine ih ys (some d) ?_
    rw [List.cons_append] at h
    have hm := reFind_none_head h
    rw [reFind_cons true re prev d (xs ++ ys) (reHere_none hm)] at h
    cases hrec : reFind true re (some d) (xs ++ ys) with
    | none => rfl
    | some m => rw [hrec] at h; cases h

theorem listStartsWith_split (needle : List Char) :
    ∀ hay : List Char, listStartsWith needle hay = true →
      ∃ post, hay = needle ++ post := by
  induction needle with
  | nil => intro hay _; exact ⟨hay, rfl⟩
  | cons a as ih =>
    intro hay h
    cases hay with
    | nil => simp [listStartsWith] at h
    | cons b bs =>
      rw [listStartsWith, Bool.and_eq_true, decide_eq_true_eq] at h
      obtain ⟨hab, hrest⟩ := h
      obtain ⟨post, hpost⟩ := ih bs hrest
      exact ⟨post, by rw [hab, hpost]; rfl⟩

theorem containsSub_split (needle : List Char) :
    ∀ hay : List Char, containsSub needle hay = true →
      ∃ pre post, hay = pre ++ needle ++ post := by
  intro hay
  induction hay with
  | nil =>
    intro h
    rw [containsSub] at h
    obtain ⟨post, hpost⟩ := listStartsWith_split needle [] h
    exact ⟨[], post, hpost⟩
  | cons b bs ih =>
    intro h
    rw [containsSub, Bool.or_eq_true] at h
    rcases h with h | h
    · obtain ⟨post, hpost⟩ := listStartsWith_split needle (b :: bs) h
      exact ⟨[], post, by rw [hpost]; rfl⟩
    · obtain ⟨pre, post, hsplit⟩ := ih h
      exact ⟨b :: pre, post, by rw [hsplit]; rfl⟩

/-- A case-insensitive match of the word-bounded "and" separator exists at
a position whose previous character lowers to a space and whose next four
characters lower to a, n, d, space. -/
theorem band_ci_match (c0 x1 x2 x3 s2 : Char) (b : List Char)
    (h0 : pyLowerChar c0 = ' ') (h1 : pyLowerChar x1 = 'a')
    (h2 : pyLowerChar x2 = 'n') (h3 : pyLowerChar x3 = 'd')
    (h4 : pyLowerChar s2 = ' ') :
    mmatch (fuelFor (x1 :: x2 :: x3 :: s2 :: b)) true sepWordAnd
      ⟨some c0, x1 :: x2 :: x3 :: s2 :: b, []⟩ ≠ [] := by
  obtain ⟨m, hm⟩ : ∃ m, fuelFor (x1 :: x2 :: x3 :: s2 :: b) =
      m + 1 + 1 + 1 + 1 + 1 + 1 + 1 + 1 :=
    ⟨fuelFor (x1 :: x2 :: x3 :: s2 :: b) - 8, by
      unfold fuelFor
      simp only [List.length_cons]
      omega⟩
  rw [hm]
  have hw0 : isWordChar c0 = false := by
    rw [← isWordChar_pyLowerChar, h0]; decide
  have hw1 : isWordChar x1 = true := by
    rw [← isWordChar_pyLowerChar, h1]; decide
  have hw2 : isWordChar x2 = true := by
    rw [← isWordChar_pyLowerChar, h2]; decide
  have hw3 : isWordChar x3 = true := by
    rw [← isWordChar_pyLowerChar, h3]; decide
  have hw4 : isWordChar s2 = false := by
    rw [← isWordChar_pyLowerChar, h4]; decide
  have hc1 : charEq true 'a' x1 = true := by
    unfold charEq; rw [if_pos rfl, h1]; decide
  have hc2 : charEq true 'n' x2 = true := by
    unfold charEq; rw [if_pos rfl, h2]; decide
  have hc3 : charEq true 'd' x3 = true := by
    unfold charEq; rw [if_pos rfl, h3]; decide
  simp [mmatch, sepWordAnd, restr, rstr, optWord, nextWord, hw0, hw1, hw2,
    hw3, hw4, hc1, hc2, hc3]

/-- When the word-bounded "and" separator has no case-insensitive match in
a text, the lower-cased text cannot contain " and ". -/
theorem no_and_infix (part : List Char)
    (hci : reFind true sepWordAnd none part = none) :
    containsSub " and ".data (lowerChars part) = false := by
  cases hcc : containsSub " and ".data (lowerChars part) with
  | false => rfl
  | true =>
    exfalso
    obtain ⟨pre, post, hsplit⟩ := containsSub_split _ _ hcc
    rw [show (" and ".data : List Char) = [' ', 'a', 'n', 'd', ' '] from rfl]
      at hsplit
    rw [lowerChars] at hsplit
    obtain ⟨l1, l2, hpart, hl1, hl2⟩ := List.map_eq_append_iff.mp hsplit
    obtain ⟨l11, l12, hl1split, hl11, hl12⟩ := List.map_eq_append_iff.mp hl1
    obtain ⟨c0, r0, he0, hc0, hr0⟩ := List.map_eq_cons_iff.mp hl12
    obtain ⟨c1, r1, he1, hc1, hr1⟩ := List.map_eq_cons_iff.mp hr0
    obtain ⟨c2, r2, he2, hc2, hr2⟩ := List.map_eq_cons_iff.mp hr1
    obtain ⟨c3, r3, he3, hc3, hr3⟩ := List.map_eq_cons_iff.mp hr2
    obtain ⟨c4, r4, he4, hc4, hr4⟩ := List.map_eq_cons_iff.mp hr3
    have hr4nil : r4 = [] := by
      cases r4 with
      | nil => rfl
      | cons z zs => cases hr4
    subst hr4nil
    subst he4
    subst he3
    subst he2
    subst he1
    subst he0
    have hxy : part = (l11 ++ [c0]) ++ (c1 :: c2 :: c3 :: c4 :: l2) := by
      rw [hpart, hl1split]
      simp
    have hAll := reFind_none_all sepWordAnd (l11 ++ [c0])
      (c1 :: c2 :: c3 :: c4 :: l2) none (by rw [← hxy]; exact hci)
    have hprev : prevAt none (l11 ++ [c0]) = some c0 := by
      unfold prevAt
      rw [List.getLast?_concat]
    rw [hprev] at hAll
    exact band_ci_match c0 c1 c2 c3 c4 l2 hc0 hc1 hc2 hc3 hc4 hAll

theorem resplit_no_match (re : Re) (fuel : Nat) (prev : Option Char)
    (s : List Char) (h : reFind false re prev s = none) :
    resplit re fuel prev s = [s] := by
  cases fuel with
  | zero => rfl
  | succ f =>
    unfold resplit
    rw [h]

theorem resplitTop_no_match (re : Re) (s : List Char)
    (h : reFind false re none s = none) : resplitTop re s = [s] :=
  resplit_no_match re (s.length + 1) none s h

theorem reMatchStartCI_false (re : Re) (s : List Char)
    (h : reFind true re none s = none) : reMatchStartCI re s = false := by
  unfold reMatchStartCI
  rw [reFind_none_head h]
  rfl

theorem processPart_no_match (re : Re) (part : List Char)
    (hstrip : stripChars part = part) (hne : part ≠ [])
    (hci : reFind true re none part = none) :
    processPart re part = [part] := by
  have hcs : reFind false re none part = none := reFind_none_mono re part none hci
  have hstart : reMatchStartCI re part = false :=
    reMatchStartCI_false re part hci
  unfold processPart
  rw [show resplitTop re part = [part] from resplitTop_no_match re part hcs]
  simp only [List.foldl_cons, List.foldl_nil, hstrip, hstart,
    Bool.false_eq_true, if_false]
  simp [hstrip, hne]

theorem foldl_processPart_no_match (part : List Char)
    (hstrip : stripChars part = part) (hne : part ≠ []) :
    ∀ pats : List Re, (∀ p ∈ pats, reFind true p none part = none) →
      pats.foldl (fun parts re => parts.flatMap (processPart re)) [part] =
        [part] := by
  intro pats
  induction pats with
  | nil => intro _; rfl
  | cons p ps ih =>
    intro hall
    rw [List.foldl_cons]
    have hone : [part].flatMap (processPart p) = [part] := by
      simp [processPart_no_match p part hstrip hne
        (hall p (List.mem_cons_self ..))]
    rw [hone]
    exact ih (fun q hq => hall q (List.mem_cons_of_mem _ hq))

/-- C7 counterexample: the decomposer can return the empty list, here on
the non-empty input "and" that consists of a single separator, so the
claimed unconditional non-emptiness is false. -/
theorem c7_counterexample :
    extract_multiple_intents "and" = [] ∧ "and" ≠ "" :=
  ⟨by decide, by decide⟩

/-- C7 amended: the decomposer returns an ordered list of statements; for
every input whose stripped text is non-empty and in which no separator
pattern matches anywhere (case-insensitively), the result is exactly the
one-element list holding the stripped input; an input that is empty or
consists only of separators, such as "and", may give the empty list. -/
theorem c7_no_separator_singleton (raw : String)
    (hne : stripChars raw.data ≠ [])
    (hsep : hasSepMatchCI (stripChars raw.data) = false) :
    extract_multiple_intents raw = [String.mk (stripChars raw.data)] := by
  have hstrip : stripChars (stripChars raw.data) = stripChars raw.data :=
    stripChars_idem raw.data
  have hall : ∀ p ∈ sepPatterns,
      reFind true p none (stripChars raw.data) = none := by
    intro p hp
    cases hr : reFind true p none (stripChars raw.data) with
    | none => rfl
    | some m =>
      exfalso
      have htrue : hasSepMatchCI (stripChars raw.data) = true := by
        rw [hasSepMatchCI, List.any_eq_true]
        exact ⟨p, hp, by rw [hr]; rfl⟩
      rw [htrue] at hsep
      cases hsep
  have hand : containsSub " and ".data (lowerChars (stripChars raw.data))
      = false :=
    no_and_infix _ (hall sepWordAnd (by simp [sepPatterns]))
  simp only [extract_multiple_intents]
  rw [foldl_processPart_no_match (stripChars raw.data) hstrip hne
    sepPatterns hall]
  simp [hstrip, hne, refineAnd, hand]

/-- Witness for c7_no_separator_singleton on a separator-free input. -/
theorem c7_no_separator_singleton_witness :
    (stripChars "hello world".data ≠ [] ∧
     hasSepMatchCI (stripChars "hello world".data) = false) ∧
    extract_multiple_intents "hello world" =
      [String.mk (stripChars "hello world".data)] :=
  ⟨⟨by decide, by decide⟩,
   c7_no_separator_singleton "hello world" (by decide) (by decide)⟩

end TodoApp
